import Mathlib

/-!
# tcp_packet_transfer: ring buffer, receiver (server) and sender (client)

A shallow embedding of `src/src/ring_buffer.c`, `src/src/server.c` and
`src/src/client.c`.

Modelling conventions.
* `int` counters (`read`, `write`, `n_items`, semaphore values) are natural
  numbers: the C code only ever increments `read` and `write` from 0, and a
  signed overflow of these counters (after 2^31 packets) is undefined in C and
  outside the model.
* A `buf_item` is a record; `img_data` is the payload as an opaque list of
  bytes.  Memory that `Malloc` leaves uninitialised is modelled by a fixed
  blank value.
* A POSIX semaphore is its value; `sem_wait` on value 0 blocks, which the model
  renders as `none` (the step is not enabled).
* The mutex section of `enqueue` (lines 53-56) and of `dequeue` (lines 70-72)
  are atomic steps; everything outside a mutex section is a step of its own and
  may interleave with the steps of the other threads.
* Arithmetic on `time_t` and on the `int` counters of `client_job` is exact
  integer arithmetic (no overflow); the C division is undefined for the divisor
  0, which the model renders as `none`.
* A `double` or `float` value is the fraction it denotes; a conversion or an
  operation rounds to the nearest value of the format, ties to even.  The
  values that occur (an integer quotient over 1000) are inside the normal range
  of both formats.  The text written by `%f` is the number it denotes, in
  millionths.
* A call of `exit` (through `unix_error`) ends the process with all its threads;
  the model renders it as an outcome of its own.
-/

namespace TcpPacketTransfer

/-! ## Data model (`include/ring_buffer.h`) -/

/-- The length of an MD5 digest, `MD5_DIGEST_LENGTH` of `openssl/md5.h`. -/
def MD5_DIGEST_LENGTH : Nat := 16

/-- The default capacity `DEFAULT_BUFFER_SIZE` of `include/ring_buffer.h`. -/
def DEFAULT_BUFFER_SIZE : Nat := 8

/-- The frame size `MAXLINE` of `include/safe_wrappers.h`. -/
def MAXLINE : Nat := 8192

/-- The packet `buf_item`: payload bytes, send time in ms, digest, sequence id. -/
structure buf_item where
  img_data : List Nat
  timestamp : Int
  checksum : List Nat
  id : Int
deriving DecidableEq

/-- The struct `ring_buffer`; the two semaphores are their values, and `data`
holds the slots themselves (in C: pointers to slots allocated once by `init_buf`). -/
structure ring_buffer where
  read : Nat
  write : Nat
  n_items : Nat
  countsem : Nat
  spacesem : Nat
  data : List buf_item
deriving DecidableEq

/-- The content of a freshly allocated slot after `init_buf` set `id = -1`. -/
def empty_item : buf_item :=
  { img_data := [], timestamp := 0, checksum := [], id := -1 }

/-- The function `init_buf` (ring_buffer.c 11-35): no check of `n_items`. -/
def init_buf (n_items : Nat) : ring_buffer :=
  { read := 0
    write := 0
    n_items := n_items
    countsem := 0
    spacesem := n_items
    data := List.replicate n_items empty_item }

/-- The index expression `counter & (n_items - 1)` of `enqueue` and `dequeue`.
For `n_items = 0` the C mask is `-1` (all bits set), which keeps the counter. -/
def slot_index (counter n_items : Nat) : Nat :=
  if n_items = 0 then counter else counter &&& (n_items - 1)

/-- The call `sem_wait(&buf->spacesem)`: blocks (`none`) at value 0. -/
def sem_wait_space (buf : ring_buffer) : Option ring_buffer :=
  if buf.spacesem = 0 then none else some { buf with spacesem := buf.spacesem - 1 }

/-- The call `sem_post(&buf->spacesem)`. -/
def sem_post_space (buf : ring_buffer) : ring_buffer :=
  { buf with spacesem := buf.spacesem + 1 }

/-- The call `sem_wait(&buf->countsem)`: blocks (`none`) at value 0. -/
def sem_wait_count (buf : ring_buffer) : Option ring_buffer :=
  if buf.countsem = 0 then none else some { buf with countsem := buf.countsem - 1 }

/-- The call `sem_post(&buf->countsem)`. -/
def sem_post_count (buf : ring_buffer) : ring_buffer :=
  { buf with countsem := buf.countsem + 1 }

/-- The mutex section of `enqueue` (ring_buffer.c 53-56): the slot at
`write & (n_items-1)` receives a copy of `cache_buf`, and `write` advances. -/
def enqueue_copy (buf : ring_buffer) (cache_buf : buf_item) : ring_buffer :=
  { buf with
    data := buf.data.set (slot_index buf.write buf.n_items) cache_buf
    write := buf.write + 1 }

/-- The function `enqueue` (ring_buffer.c 51-60). -/
def enqueue (buf : ring_buffer) (cache_buf : buf_item) : ring_buffer :=
  sem_post_count (enqueue_copy buf cache_buf)

/-- The mutex section of `dequeue` (ring_buffer.c 70-72): the slot index that
`item` points to, and the buffer with `read` advanced. -/
def dequeue_take (buf : ring_buffer) : Nat × ring_buffer :=
  (slot_index buf.read buf.n_items, { buf with read := buf.read + 1 })

/-- The statement `item->id = -1` of `dequeue` (ring_buffer.c 75). -/
def mark_processed (buf : ring_buffer) (slot : Nat) : ring_buffer :=
  match buf.data[slot]? with
  | some item => { buf with data := buf.data.set slot { item with id := -1 } }
  | none => buf

/-- The function `dequeue` (ring_buffer.c 65-79) run without interruption: the
item that `process_item` is handed, and the buffer afterwards. -/
def dequeue (buf : ring_buffer) : Option (buf_item × ring_buffer) :=
  match sem_wait_count buf with
  | none => none
  | some b1 =>
    match b1.data[(dequeue_take b1).1]? with
    | none => none
    | some item =>
      some (item, sem_post_space (mark_processed (dequeue_take b1).2 (dequeue_take b1).1))

/-- The number of slots whose `id` is not `-1` (what `print_buffer` shows as occupied). -/
def occupied (buf : ring_buffer) : Nat :=
  buf.data.countP (fun item => decide (item.id ≠ -1))

/-! ## The threads around one buffer

The processor thread (`buffer_job`, the only caller of `dequeue`) is
represented by its position inside `dequeue`.  The receiver threads
(`client_job`) are anonymous: `reserved` counts those that have passed
`sem_wait(&buf->spacesem)` (server.c 171) and not yet reached `enqueue`, the
roll-back `sem_post` (server.c 214) or the `break` (server.c 181); `posting`
counts those inside `enqueue` between the unlock and `sem_post(&buf->countsem)`. -/

/-- Where the processor thread stands inside `dequeue`. -/
inductive ProcPC where
  | idle
  | waited
  | holding (slot : Nat)
  | processed (slot : Nat)
  | marked
deriving DecidableEq

/-- The shared buffer, the thread positions and the items seen by `process_item`. -/
structure Sys where
  buf : ring_buffer
  pc : ProcPC
  reserved : Nat
  posting : Nat
  drained : List buf_item
deriving DecidableEq

/-- One atomic step of one thread. -/
inductive Event where
  | reserve
  | enq_copy (p : buf_item)
  | enq_post
  | release
  | abandon
  | deq_wait
  | deq_take
  | deq_process
  | deq_mark
  | deq_post
deriving DecidableEq

/-- The state after `init_buf(n_items)` with no receiver connected. -/
def init_sys (n_items : Nat) : Sys :=
  { buf := init_buf n_items, pc := ProcPC.idle, reserved := 0, posting := 0, drained := [] }

/-- One step; `none` when the step is not enabled (a blocked `sem_wait`, or no
thread stands at that statement). -/
def step (s : Sys) : Event → Option Sys
  | Event.reserve =>
    match sem_wait_space s.buf with
    | none => none
    | some b => some { s with buf := b, reserved := s.reserved + 1 }
  | Event.enq_copy p =>
    if s.reserved = 0 then none
    else some { s with buf := enqueue_copy s.buf p, reserved := s.reserved - 1,
                       posting := s.posting + 1 }
  | Event.enq_post =>
    if s.posting = 0 then none
    else some { s with buf := sem_post_count s.buf, posting := s.posting - 1 }
  | Event.release =>
    if s.reserved = 0 then none
    else some { s with buf := sem_post_space s.buf, reserved := s.reserved - 1 }
  | Event.abandon =>
    if s.reserved = 0 then none
    else some { s with reserved := s.reserved - 1 }
  | Event.deq_wait =>
    match s.pc with
    | ProcPC.idle =>
      match sem_wait_count s.buf with
      | none => none
      | some b => some { s with buf := b, pc := ProcPC.waited }
    | _ => none
  | Event.deq_take =>
    match s.pc with
    | ProcPC.waited =>
      some { s with buf := (dequeue_take s.buf).2, pc := ProcPC.holding (dequeue_take s.buf).1 }
    | _ => none
  | Event.deq_process =>
    match s.pc with
    | ProcPC.holding slot =>
      match s.buf.data[slot]? with
      | none => none
      | some item => some { s with pc := ProcPC.processed slot, drained := s.drained ++ [item] }
    | _ => none
  | Event.deq_mark =>
    match s.pc with
    | ProcPC.processed slot =>
      some { s with buf := mark_processed s.buf slot, pc := ProcPC.marked }
    | _ => none
  | Event.deq_post =>
    match s.pc with
    | ProcPC.marked => some { s with buf := sem_post_space s.buf, pc := ProcPC.idle }
    | _ => none

/-- A run: the steps of an interleaving, one after the other. -/
def run (s : Sys) : List Event → Option Sys
  | [] => some s
  | e :: es =>
    match step s e with
    | none => none
    | some s1 => run s1 es

/-- The packets copied into the buffer by a run, in the order of the mutex sections. -/
def enqueued : List Event → List buf_item
  | [] => []
  | Event.enq_copy p :: es => p :: enqueued es
  | _ :: es => enqueued es

/-- Is the processor between `sem_wait(&buf->countsem)` and the mutex section? -/
def ProcPC.waitedFlag : ProcPC → Nat
  | ProcPC.waited => 1
  | _ => 0

/-- Has the processor advanced `read` without having posted `spacesem` yet? -/
def ProcPC.inflight : ProcPC → Nat
  | ProcPC.holding _ => 1
  | ProcPC.processed _ => 1
  | ProcPC.marked => 1
  | _ => 0

/-- Has the processor advanced `read` without having set `item->id = -1` yet? -/
def ProcPC.unmarked : ProcPC → Nat
  | ProcPC.holding _ => 1
  | ProcPC.processed _ => 1
  | _ => 0

/-- Has the processor advanced `read` without having called `process_item` yet? -/
def ProcPC.unprocessed : ProcPC → Nat
  | ProcPC.holding _ => 1
  | _ => 0

/-- The invariant of the protocol for capacity `C`, relative to the packets
`enq` copied into the buffer so far. -/
structure Inv (C : Nat) (enq : List buf_item) (s : Sys) : Prop where
  hn : s.buf.n_items = C
  hlen : s.buf.data.length = C
  hW : enq.length = s.buf.write
  hcount : s.buf.countsem + s.posting + s.buf.read + s.pc.waitedFlag = s.buf.write
  hspace : s.buf.spacesem + s.reserved + s.buf.write + s.pc.inflight ≤ C + s.buf.read
  hR : s.pc.inflight ≤ s.buf.read
  hdl : s.drained.length + s.pc.unprocessed = s.buf.read
  hdr : s.drained = enq.take s.drained.length
  hslot : ∀ slot, (s.pc = ProcPC.holding slot ∨ s.pc = ProcPC.processed slot) →
    slot = (s.buf.read - 1) % C
  hdata : ∀ j, s.buf.read ≤ j + s.pc.unmarked → j < s.buf.write →
    s.buf.data[j % C]? = enq[j]?
  hempty : ∀ i, i < C →
    (∀ j, s.buf.read ≤ j + s.pc.unmarked → j < s.buf.write → j % C ≠ i) →
    ∃ item, s.buf.data[i]? = some item ∧ item.id = -1

/-! ## The digest (`md5checksum`, ring_buffer.c 124-161)

The functions `MD5_Init`, `MD5_Update` and `MD5_Final` belong to openssl, and
the bytes of a `buf_item` in memory as well as `sizeof(buf_item)` are fixed by
the C compiler: all of them are parameters.  An `MD5_CTX` is represented by the
bytes fed to it so far. -/

/-- What the program takes from its platform and from its command line. -/
structure Config where
  md5 : List Nat → List Nat
  image : buf_item → List Nat
  packet_size : Nat
  use_checksum : Bool

/-- An array `unsigned char [MD5_DIGEST_LENGTH]` filled by
`memcpy(dst, src, MD5_DIGEST_LENGTH)`: exactly 16 bytes. -/
def bytes16 (src : List Nat) : List Nat :=
  (List.range MD5_DIGEST_LENGTH).map (fun ii => src.getD ii 0)

/-- The call `MD5_Update(&c, read_ptr, len)`: `len` more bytes enter the context. -/
def MD5_Update (c : List Nat) (read_ptr : List Nat) (len : Nat) : List Nat :=
  c ++ read_ptr.take len

/-- The loop `while (length > 0)` of `md5checksum` (ring_buffer.c 140-149), with
the chunk size `MAXLINE` as `chunk`; `read_ptr` is the memory from the read
pointer on.  The first argument bounds the number of iterations. -/
def digest_loop (chunk : Nat) : Nat → List Nat → List Nat → Nat → List Nat
  | 0, c, _, _ => c
  | fuel + 1, c, read_ptr, length =>
    if length > 0 then
      if length > chunk then
        digest_loop chunk fuel (MD5_Update c read_ptr chunk) (read_ptr.drop chunk) (length - chunk)
      else MD5_Update c read_ptr length
    else c

/-- The comparison loop of `md5checksum` (ring_buffer.c 156-160): 1 when the 16
bytes agree, 0 at the first difference. -/
def compare_checksums (old_checksum new_checksum : List Nat) : Nat :=
  if (List.range MD5_DIGEST_LENGTH).all
      (fun ii => decide (old_checksum.getD ii 0 = new_checksum.getD ii 0))
  then 1 else 0

/-- The packet as `md5checksum` digests it: checksum and timestamp zeroed
(ring_buffer.c 135-136). -/
def zero_fields (item : buf_item) : buf_item :=
  { item with checksum := List.replicate MD5_DIGEST_LENGTH 0, timestamp := 0 }

/-- The bytes that `md5checksum` feeds to MD5 for `item`. -/
def digested_bytes (cfg : Config) (item : buf_item) (length : Nat) : List Nat :=
  digest_loop MAXLINE length [] (cfg.image (zero_fields item)) length

/-- The function `md5checksum` (ring_buffer.c 124-161): the item afterwards
(checksum replaced by the new digest, timestamp left at 0) and the returned
value (1 when the old checksum equals the new one, else 0). -/
def md5checksum (cfg : Config) (item : buf_item) (length : Nat) : buf_item × Nat :=
  ({ zero_fields item with checksum := bytes16 (cfg.md5 (digested_bytes cfg item length)) },
    compare_checksums (bytes16 item.checksum)
      (bytes16 (cfg.md5 (digested_bytes cfg item length))))

/-! ## The receiver (`client_job`, server.c 131-240) -/

/-- What the reads of one iteration of the receiver loop return: the byte count
and text of `Rio_readnb(&rio_client,msg,MAXLINE)` (server.c 163) and, for the
case that the iteration gets there, the byte count and content of
`Rio_readnb(&rio_client,cache_buf,sizeof(buf_item))` (server.c 178). -/
structure Exchange where
  nbytes : Int
  msg : String
  packet_nbytes : Int
  packet : buf_item

/-- The variables of `client_job` that the loop changes, and the shared buffer. -/
structure client_state where
  buf : ring_buffer
  cache_buf : buf_item
  cnt : Nat
  received : Nat
  total_size : Int
  checksum : Nat

/-- Lines 196-197 of server.c: the packet and the flag `checksum` after
`if (use_checksum) checksum = md5checksum(...)`. -/
def check_packet (cfg : Config) (checksum : Nat) (cache_buf : buf_item) : buf_item × Nat :=
  if cfg.use_checksum then md5checksum cfg cache_buf cfg.packet_size else (cache_buf, checksum)

/-- The loop of `client_job` (server.c 163-216) over the reads that the
connection delivers, restricted to its effect on the buffer and on the
counters: the writes to the sender (lines 175, 190) are taken to succeed and
the progress percentages (lines 180, 206, 213) to be defined, that is, the
announced count is not 0.  The loop with the writes, the bandwidth and the
percentages is `client_rounds`; `client_rounds_state` shows that the two agree
under these conditions.  The end of the list is the end of the stream (the
read returns 0).  `none`: the receiver blocks in `sem_wait(&buf->spacesem)`
and, no other thread running, stays blocked. -/
def client_loop (cfg : Config) : List Exchange → client_state → Option client_state
  | [], st => some st
  | x :: rest, st =>
    if x.nbytes ≤ 0 then some st
    else if x.msg = "CLIENT_FINISHED" then some st
    else if x.msg ≠ "CLIENT_READY" then client_loop cfg rest st
    else
      match sem_wait_space st.buf with
      | none => none
      | some b =>
        if x.packet_nbytes ≠ (cfg.packet_size : Int) then
          some { st with buf := b, cache_buf := x.packet }
        else
          if (check_packet cfg st.checksum x.packet).2 ≠ 0 then
            client_loop cfg rest
              { buf := enqueue b (check_packet cfg st.checksum x.packet).1
                cache_buf := (check_packet cfg st.checksum x.packet).1
                cnt := st.cnt + 1
                received := st.received + 1
                total_size := st.total_size + x.packet_nbytes
                checksum := (check_packet cfg st.checksum x.packet).2 }
          else
            client_loop cfg rest
              { buf := sem_post_space b
                cache_buf := (check_packet cfg st.checksum x.packet).1
                cnt := st.cnt + 1
                received := st.received
                total_size := st.total_size + x.packet_nbytes
                checksum := (check_packet cfg st.checksum x.packet).2 }

/-- The receiver `client_job` on the shared buffer `buf`: the state at loop
exit (server.c 134, 139, 163-216); the handshake reads and the printed
summary are left out. -/
def client_job (cfg : Config) (exchanges : List Exchange) (buf : ring_buffer) :
    Option client_state :=
  client_loop cfg exchanges
    { buf := buf, cache_buf := empty_item, cnt := 0, received := 0, total_size := 0,
      checksum := 1 }

/-! ## The sender (`main`, client.c 19-146) -/

/-- A frame on the connection: a `MAXLINE` text frame (the C string in `msg`)
or a binary frame of `sizeof(buf_item)` bytes. -/
inductive Frame where
  | text (msg : String)
  | packet (p : buf_item)
deriving DecidableEq

/-- The variables of the sender's `main`, the frames still to be read from the
receiver and the frames written so far. -/
structure sender_state where
  ii : Nat
  packet : buf_item
  msg : String
  err_flag : Bool
  replies : List String
  sent : List Frame
deriving DecidableEq

/-- The call `Rio_readnb(&rio_server,msg,MAXLINE)`: the next frame from the
receiver replaces `msg`; at the end of the stream `msg` keeps its content. -/
def read_reply (st : sender_state) : sender_state :=
  match st.replies with
  | [] => st
  | r :: rest => { st with msg := r, replies := rest }

/-- The call `Rio_writen(clientfd,msg,MAXLINE)` after `msg` was set to `text`. -/
def write_msg (st : sender_state) (text : String) : sender_state :=
  { st with msg := text, sent := st.sent ++ [Frame.text text] }

/-- Lines 90-93 of client.c: the packet gets its id and, with `-c`, its checksum. -/
def prepare_packet (cfg : Config) (packet : buf_item) (ii : Nat) : buf_item :=
  if cfg.use_checksum then (md5checksum cfg { packet with id := (ii : Int) } cfg.packet_size).1
  else { packet with id := (ii : Int) }

/-- Lines 90-100 of client.c: the packet is prepared, `CLIENT_READY` is
written and the receiver's answer is read into `msg`. -/
def announce (cfg : Config) (st : sender_state) : sender_state :=
  read_reply (write_msg { st with packet := prepare_packet cfg st.packet st.ii } "CLIENT_READY")

/-- Lines 103-109 of client.c: the packet is stamped with the time `t` and
written, and the bandwidth answer is read into `msg`. -/
def transmit (t : Int) (st : sender_state) : sender_state :=
  read_reply
    { st with
      packet := { st.packet with timestamp := t }
      sent := st.sent ++ [Frame.packet { st.packet with timestamp := t }] }

/-- The loop `for (ii = 0; ii < npackets; ii++)` of the sender (client.c
88-121); `now ii` is what `get_time_ms` returns when packet `ii` is stamped.
The first argument bounds the number of iterations, `none` when it is used up. -/
def send_loop (cfg : Config) (now : Nat → Int) (npackets : Int) :
    Nat → sender_state → Option sender_state
  | 0, _ => none
  | fuel + 1, st =>
    if (st.ii : Int) < npackets then
      if (announce cfg st).msg = "ACK" then
        send_loop cfg now npackets fuel
          { transmit (now st.ii) (announce cfg st) with ii := st.ii + 1 }
      else some { announce cfg st with err_flag := true }
    else some st

/-- What the sender prints at the end (client.c 132-137): the error flag chooses
the message, then `ii/npackets`. -/
structure Report where
  err_flag : Bool
  packets_sent : Nat
  packets_requested : Int
deriving DecidableEq

/-- The sender's `main` from the handshake on (client.c 79-137): `packet` is the
content of the freshly allocated packet, `start` the clock value sent first,
`replies` the frames that the receiver sends.  The
result: all frames written, in order, and the final report. -/
def client_main (cfg : Config) (packet : buf_item) (start : Int) (now : Nat → Int)
    (npackets : Int) (replies : List String) : Option (List Frame × Report) :=
  match send_loop cfg now npackets (npackets.toNat + 1)
      (write_msg (write_msg
        { ii := 0, packet := packet, msg := "", err_flag := false, replies := replies,
          sent := [] } (toString start)) (toString npackets)) with
  | none => none
  | some st =>
    some ((write_msg st "CLIENT_FINISHED").sent,
      { err_flag := st.err_flag, packets_sent := st.ii, packets_requested := npackets })

/-- The frames that the receiver sends when it acknowledges one packet for each
bandwidth text in `bws`: `ACK`, then the bandwidth. -/
def acked_rounds : List String → List String
  | [] => []
  | bw :: bws => "ACK" :: bw :: acked_rounds bws

/-- The ids of the packet frames in a list of frames, in order. -/
def packet_ids : List Frame → List Int
  | [] => []
  | Frame.packet p :: fs => p.id :: packet_ids fs
  | Frame.text _ :: fs => packet_ids fs

/-! ## Concrete runs -/

/-- A packet that carries only a sequence id. -/
def packet_with_id (i : Int) : buf_item :=
  { img_data := [], timestamp := 0, checksum := [], id := i }

/-- The steps of a receiver that reserves a slot and enqueues `p`. -/
def enqueue_events (p : buf_item) : List Event :=
  [Event.reserve, Event.enq_copy p, Event.enq_post]

/-- The steps of one call of `dequeue` by the processor. -/
def dequeue_events : List Event :=
  [Event.deq_wait, Event.deq_take, Event.deq_process, Event.deq_mark, Event.deq_post]

/-- A receiver enqueues the packets with the given ids, the processor does nothing. -/
def produce : List Int → List Event
  | [] => []
  | i :: ids => enqueue_events (packet_with_id i) ++ produce ids

/-- For each id: the processor drains one item, then a receiver enqueues that id. -/
def drain_then_produce : List Int → List Event
  | [] => []
  | i :: ids => dequeue_events ++ enqueue_events (packet_with_id i) ++ drain_then_produce ids

/-- Scenario A: capacity 4, ids 0..9, the receiver always ahead of the processor
(the buffer is full from the fourth packet on). -/
def scenario_A : List Event :=
  produce [0, 1, 2, 3] ++ drain_then_produce [4, 5, 6, 7, 8, 9] ++
    dequeue_events ++ dequeue_events ++ dequeue_events ++ dequeue_events

/-- A run that leaves a receiver about to reuse slot 0 of a capacity-4 buffer. -/
def reuse_slot_run : List Event :=
  produce [0, 1, 2, 3] ++ dequeue_events ++ [Event.reserve]

/-- The buffer that the server's `main` builds (server.c 38, 64-66, 83): the
value of `-n` when given, else `DEFAULT_BUFFER_SIZE`, goes to `init_buf` as is. -/
def server_buffer (n_option : Option Nat) : ring_buffer :=
  match n_option with
  | some n_buf_items => init_buf n_buf_items
  | none => init_buf DEFAULT_BUFFER_SIZE

/-- A stand-in platform for concrete runs: the digest is the byte sum, and a
packet with a two-byte payload occupies 20 bytes. -/
def sum_config (use_checksum : Bool) : Config :=
  { md5 := fun bytes => [bytes.sum % 256]
    image := fun item =>
      item.img_data ++ [item.timestamp.toNat] ++ bytes16 item.checksum ++ [item.id.toNat]
    packet_size := 20
    use_checksum := use_checksum }

/-- A packet as a sender with `-c` transmits it under `sum_config`: payload
7, 9, id 0, stamped at time 5, and the digest 16 of its zeroed form. -/
def sample_packet : buf_item :=
  { img_data := [7, 9], timestamp := 5, checksum := 16 :: List.replicate 15 0, id := 0 }

/-- The packet `sample_packet` with a corrupted payload byte. -/
def corrupt_packet : buf_item :=
  { sample_packet with img_data := [7, 8] }

/-- One iteration's reads: `CLIENT_READY`, then a packet read of `nbytes` bytes
that leaves `p` in `cache_buf`. -/
def ready_exchange (nbytes : Int) (p : buf_item) : Exchange :=
  { nbytes := 8192, msg := "CLIENT_READY", packet_nbytes := nbytes, packet := p }

/-- Two packets enqueued into a capacity-4 buffer, the processor inside
`dequeue` after the mutex section, then a third packet enqueued. -/
def mid_dequeue_run : List Event :=
  produce [0, 1] ++ [Event.deq_wait, Event.deq_take] ++ produce [2]

/-- Three packets enqueued into a capacity-4 buffer, one of them drained. -/
def three_in_one_out : List Event :=
  produce [0, 1, 2] ++ dequeue_events

/-- The state after the packets 0 and 1 were enqueued into a capacity-2 buffer. -/
def two_enqueued : Sys :=
  { buf :=
      { read := 0, write := 2, n_items := 2, countsem := 2, spacesem := 0,
        data := [packet_with_id 0, packet_with_id 1] }
    pc := ProcPC.idle
    reserved := 0
    posting := 0
    drained := [] }

/-- The limit `MAX_CLIENTS` of `include/ring_buffer.h`. -/
def MAX_CLIENTS : Int := 5

/-- The C division `a / b` on integers: undefined for the divisor 0 (`none`, on
the usual platforms the signal SIGFPE), else the quotient truncated toward zero. -/
def c_div (a b : Int) : Option Int :=
  if b = 0 then none else some (Int.tdiv a b)

/-- Line 153 of server.c: `clock_bias = get_time_ms(&tv) - atol(msg)`. -/
def clock_bias (local_now sender_time : Int) : Int :=
  local_now - sender_time

/-- Line 185 of server.c: `receive_t = get_time_ms(&tv) - cache_buf->timestamp - clock_bias`. -/
def receive_t (now timestamp bias : Int) : Int :=
  now - timestamp - bias

/-- The integer nearest to `p/d`, the even one of two equally near (`d > 0`). -/
def round_half_even (p d : Nat) : Nat :=
  if 2 * (p % d) < d then p / d
  else if d < 2 * (p % d) then p / d + 1
  else if (p / d) % 2 = 0 then p / d else p / d + 1

/-- The position of the highest set bit of `n`, with an iteration bound. -/
def bit_log_fuel : Nat → Nat → Nat
  | 0, _ => 0
  | fuel + 1, n => if n < 2 then 0 else bit_log_fuel fuel (n / 2) + 1

/-- The position of the highest set bit of `n`: the integer part of its binary
logarithm (0 for `n < 2`). -/
def bit_log (n : Nat) : Nat :=
  bit_log_fuel n n

/-- The integer part of the binary logarithm of `p/d`, for `p, d > 0`. -/
def floor_log2 (p d : Nat) : Int :=
  if bit_log d ≤ bit_log p then
    if d * 2 ^ (bit_log p - bit_log d) ≤ p then ((bit_log p - bit_log d : Nat) : Int)
    else ((bit_log p - bit_log d : Nat) : Int) - 1
  else
    if d ≤ p * 2 ^ (bit_log d - bit_log p) then -((bit_log d - bit_log p : Nat) : Int)
    else -((bit_log d - bit_log p : Nat) : Int) - 1

/-- The binary floating-point value with `prec` significant bits nearest to
`p/d`, ties to even, as a fraction (numerator, denominator): the rounding of
IEEE 754 in the default mode, for values in the normal range (24 bits: `float`,
53 bits: `double`). -/
def round_to (prec : Nat) (p d : Nat) : Nat × Nat :=
  if p = 0 then (0, 1)
  else if 0 ≤ floor_log2 p d - ((prec : Int) - 1) then
    (round_half_even p (d * 2 ^ (floor_log2 p d - ((prec : Int) - 1)).toNat) *
      2 ^ (floor_log2 p d - ((prec : Int) - 1)).toNat, 1)
  else
    (round_half_even (p * 2 ^ (-(floor_log2 p d - ((prec : Int) - 1))).toNat) d,
      2 ^ (-(floor_log2 p d - ((prec : Int) - 1))).toNat)

/-- The `float` that `packet_bw` holds after `packet_bw = q/1000.` for the
integer quotient `q`: `q` converted to `double`, divided by `1000.` in `double`,
the result converted to `float`; as a fraction (signed numerator, denominator).
For `q` other than 0 the values lie between 0.001 and 2^63/1000. -/
def float_of_quotient (q : Int) : Int × Nat :=
  let as_double := round_to 53 q.natAbs 1
  let divided := round_to 53 as_double.1 (as_double.2 * 1000)
  let as_float := round_to 24 divided.1 divided.2
  (if q < 0 then -(as_float.1 : Int) else (as_float.1 : Int), as_float.2)

/-- Line 188 of server.c: `packet_bw = (receive_t == 0) ? 0. : nbytes/receive_t/1000.`,
an integer division, then a division by `1000.` in `double`, stored in a `float`;
`none` if a division by zero is evaluated. -/
def packet_bw (nbytes elapsed : Int) : Option (Int × Nat) :=
  if elapsed = 0 then some (0, 1)
  else
    match c_div nbytes elapsed with
    | none => none
    | some q => some (float_of_quotient q)

/-- Line 189 of server.c: the number that `sprintf(msg,"%f",packet_bw)` writes,
six decimals, as an integer count of millionths. -/
def sprintf_f (bw : Int × Nat) : Int :=
  if bw.1 < 0 then -(round_half_even (bw.1.natAbs * 1000000) bw.2 : Int)
  else (round_half_even (bw.1.natAbs * 1000000) bw.2 : Int)

/-- A frame written by the receiver: `ACK`, or the text of a bandwidth value,
given by the number it denotes in millionths (`44739.253906` is 44739253906). -/
inductive Reply where
  | ack
  | bandwidth (millionths : Int)
deriving DecidableEq

/-- One iteration of the receiver loop as the environment shapes it: what the
reads return, whether `Rio_writen` of the `ACK` succeeds, what `get_time_ms`
returns at line 185, and whether `Rio_writen` of the bandwidth succeeds. -/
structure Round where
  reads : Exchange
  ack_written : Bool
  receive_time : Int
  bw_written : Bool

/-- The loop variables of `client_job`, the frames written to the sender and the
percentages printed so far. -/
structure job_state where
  st : client_state
  replies : List Reply
  progress : List Int

/-- How a run of the receiver loop ends.  `returned`: the loop is left and
`client_job` goes on to its summary.  `blocked`: `sem_wait` never returns.
`exited`: `Rio_writen` failed and `unix_error` called `exit(0)`, which ends the
process with all its threads.  `div_by_zero`: an integer division by zero was
evaluated (undefined behaviour; SIGFPE ends the process). -/
inductive Outcome where
  | returned (js : job_state)
  | blocked
  | exited (js : job_state)
  | div_by_zero (js : job_state)

/-- Is the receiving process still alive after the run of one receiver? -/
def process_running : Outcome → Bool
  | Outcome.returned _ => true
  | Outcome.blocked => true
  | Outcome.exited _ => false
  | Outcome.div_by_zero _ => false

/-- The state of the receiver's variables and of the buffer when the loop is left
in the regular way; `none` for a receiver that stays blocked or a process that ended. -/
def Outcome.state : Outcome → Option client_state
  | Outcome.returned js => some js.st
  | _ => none

/-- The frames that the receiver has written to the sender when its run ends
(none are recorded for a receiver that stays blocked). -/
def Outcome.replies : Outcome → List Reply
  | Outcome.returned js => js.replies
  | Outcome.blocked => []
  | Outcome.exited js => js.replies
  | Outcome.div_by_zero js => js.replies

/-- The loop of `client_job` (server.c 163-216) with the writes to the sender
(lines 175, 190), the bandwidth (lines 185-188) and the progress percentages
(lines 180, 206, 213); `bias` is `clock_bias`, `npackets` is `atoi(msg)` of the
count frame. -/
def client_rounds (cfg : Config) (bias npackets : Int) : List Round → job_state → Outcome
  | [], js => Outcome.returned js
  | r :: rest, js =>
    if r.reads.nbytes ≤ 0 then Outcome.returned js
    else if r.reads.msg = "CLIENT_FINISHED" then Outcome.returned js
    else if r.reads.msg ≠ "CLIENT_READY" then client_rounds cfg bias npackets rest js
    else
      match sem_wait_space js.st.buf with
      | none => Outcome.blocked
      | some b =>
        if r.ack_written = false then Outcome.exited { js with st := { js.st with buf := b } }
        else if r.reads.packet_nbytes ≠ (cfg.packet_size : Int) then
          match c_div (100 * ((js.st.cnt : Int) + 1)) npackets with
          | none =>
            Outcome.div_by_zero
              { js with
                st := { js.st with buf := b, cache_buf := r.reads.packet }
                replies := js.replies ++ [Reply.ack] }
          | some pct =>
            Outcome.returned
              { st := { js.st with buf := b, cache_buf := r.reads.packet }
                replies := js.replies ++ [Reply.ack]
                progress := js.progress ++ [pct] }
        else
          match packet_bw r.reads.packet_nbytes
              (receive_t r.receive_time r.reads.packet.timestamp bias) with
          | none =>
            Outcome.div_by_zero
              { js with
                st := { js.st with buf := b, cache_buf := r.reads.packet }
                replies := js.replies ++ [Reply.ack] }
          | some bw =>
            if r.bw_written = false then
              Outcome.exited
                { js with
                  st := { js.st with buf := b, cache_buf := r.reads.packet }
                  replies := js.replies ++ [Reply.ack] }
            else if (check_packet cfg js.st.checksum r.reads.packet).2 ≠ 0 then
              match c_div (100 * ((js.st.cnt : Int) + 1)) npackets with
              | none =>
                Outcome.div_by_zero
                  { js with
                    st :=
                      { buf := enqueue b (check_packet cfg js.st.checksum r.reads.packet).1
                        cache_buf := (check_packet cfg js.st.checksum r.reads.packet).1
                        cnt := js.st.cnt + 1
                        received := js.st.received + 1
                        total_size := js.st.total_size + r.reads.packet_nbytes
                        checksum := (check_packet cfg js.st.checksum r.reads.packet).2 }
                    replies := js.replies ++ [Reply.ack, Reply.bandwidth (sprintf_f bw)] }
              | some pct =>
                client_rounds cfg bias npackets rest
                  { st :=
                      { buf := enqueue b (check_packet cfg js.st.checksum r.reads.packet).1
                        cache_buf := (check_packet cfg js.st.checksum r.reads.packet).1
                        cnt := js.st.cnt + 1
                        received := js.st.received + 1
                        total_size := js.st.total_size + r.reads.packet_nbytes
                        checksum := (check_packet cfg js.st.checksum r.reads.packet).2 }
                    replies := js.replies ++ [Reply.ack, Reply.bandwidth (sprintf_f bw)]
                    progress := js.progress ++ [pct] }
            else
              match c_div (100 * ((js.st.cnt : Int) + 1)) npackets with
              | none =>
                Outcome.div_by_zero
                  { js with
                    st :=
                      { buf := b
                        cache_buf := (check_packet cfg js.st.checksum r.reads.packet).1
                        cnt := js.st.cnt + 1
                        received := js.st.received
                        total_size := js.st.total_size + r.reads.packet_nbytes
                        checksum := (check_packet cfg js.st.checksum r.reads.packet).2 }
                    replies := js.replies ++ [Reply.ack, Reply.bandwidth (sprintf_f bw)] }
              | some pct =>
                client_rounds cfg bias npackets rest
                  { st :=
                      { buf := sem_post_space b
                        cache_buf := (check_packet cfg js.st.checksum r.reads.packet).1
                        cnt := js.st.cnt + 1
                        received := js.st.received
                        total_size := js.st.total_size + r.reads.packet_nbytes
                        checksum := (check_packet cfg js.st.checksum r.reads.packet).2 }
                    replies := js.replies ++ [Reply.ack, Reply.bandwidth (sprintf_f bw)]
                    progress := js.progress ++ [pct] }

/-- The receiver `client_job` from the handshake on (server.c 151-216):
`local_now` is the clock at line 153, `sender_time` is `atol` of the clock
frame and `npackets` is `atoi` of the count frame. -/
def client_job_rounds (cfg : Config) (local_now sender_time npackets : Int)
    (rounds : List Round) (buf : ring_buffer) : Outcome :=
  client_rounds cfg (clock_bias local_now sender_time) npackets rounds
    { st := { buf := buf, cache_buf := empty_item, cnt := 0, received := 0, total_size := 0,
              checksum := 1 }
      replies := []
      progress := [] }

/-- A round in which the sender announces a packet and the packet read returns
`nbytes` bytes with content `p`, received at time `t`. -/
def ready_round (nbytes : Int) (p : buf_item) (t : Int) (ack_written bw_written : Bool) :
    Round :=
  { reads := ready_exchange nbytes p, ack_written := ack_written, receive_time := t,
    bw_written := bw_written }

/-! ## The idle notification (`buffer_job`, server.c 246-271; `client_job`, server.c 230-236) -/

/-- The text of the idle notification. -/
def idle_message : String := "No packets in processing queue, waiting..."

/-- The variable `flag` of `buffer_job` and the lines written to standard output. -/
structure poll_state where
  flag : Bool
  output : List String
deriving DecidableEq

/-- One pass through the body of `while (sval == buf->n_items)` in `buffer_job`
(server.c 255-260), in which the value `nclients` is read. -/
def idle_poll (ps : poll_state) (nclients : Int) : poll_state :=
  if ps.flag = false ∧ nclients > 0 then { ps with flag := true }
  else if ps.flag = true ∧ nclients = 0 then
    { flag := false, output := ps.output ++ [idle_message] }
  else ps

/-- The passes of `buffer_job` through its empty-buffer loop for a sequence of
observed values of `nclients`; `flag` lives across the whole sequence. -/
def idle_polls (ps : poll_state) : List Int → poll_state
  | [] => ps
  | nclients :: rest => idle_polls (idle_poll ps nclients) rest

/-- The counter `nclients` together with the processor's flag and the output. -/
structure server_state where
  nclients : Int
  poll : poll_state
deriving DecidableEq

/-- What happens around `nclients` while the buffer stays empty: `main` counts a
new connection (server.c 117-119), `buffer_job` polls, or a receiver that
enqueued `received` packets reaches the end of `client_job` (server.c 230-236). -/
inductive ServerEvent where
  | connect
  | poll
  | receiver_exit (received : Nat)
deriving DecidableEq

/-- One such step. -/
def server_step (s : server_state) : ServerEvent → server_state
  | ServerEvent.connect => { s with nclients := s.nclients + 1 }
  | ServerEvent.poll => { s with poll := idle_poll s.poll s.nclients }
  | ServerEvent.receiver_exit received =>
    { nclients := s.nclients - 1
      poll :=
        { s.poll with
          output := s.poll.output ++ (if received = 0 then [idle_message] else []) } }

/-- The steps one after the other. -/
def server_run (s : server_state) : List ServerEvent → server_state
  | [] => s
  | e :: es => server_run (server_step s e) es

/-- The values of `nclients` that the polls of a run observe, in order. -/
def observed (s : server_state) : List ServerEvent → List Int
  | [] => []
  | ServerEvent.poll :: es => s.nclients :: observed (server_step s ServerEvent.poll) es
  | e :: es => observed (server_step s e) es

/-- The server before any connection. -/
def server_start : server_state :=
  { nclients := 0, poll := { flag := false, output := [] } }

/-! ## The accept loop (`main`, server.c 44, 104-121) -/

/-- The counter `nclients` as `main` sees it, where `main` stands (`accepting`:
past the test `nclients < MAX_CLIENTS`, inside `Accept`; `returned`: out of
the loop), and the indices used in `&tid[nclients]` so far. -/
structure accept_state where
  nclients : Int
  accepting : Bool
  returned : Bool
  tid_indices : List Int
deriving DecidableEq

/-- The loop test of `main`, the arrival of a connection, the end of a receiver. -/
inductive AcceptEvent where
  | test
  | arrival
  | receiver_exit
deriving DecidableEq

/-- One step around the accept loop; `none` when the step is not enabled.  At an
arrival `nclients` is incremented and then read as the index of `tid`. -/
def accept_step (s : accept_state) : AcceptEvent → Option accept_state
  | AcceptEvent.test =>
    if s.accepting = true ∨ s.returned = true then none
    else if s.nclients < MAX_CLIENTS then some { s with accepting := true }
    else some { s with returned := true }
  | AcceptEvent.arrival =>
    if s.accepting = true then
      some { nclients := s.nclients + 1, accepting := false, returned := false,
             tid_indices := s.tid_indices ++ [s.nclients + 1] }
    else none
  | AcceptEvent.receiver_exit =>
    if s.returned = true ∨ s.nclients ≤ 0 then none
    else some { s with nclients := s.nclients - 1 }

/-- The steps one after the other. -/
def accept_run (s : accept_state) : List AcceptEvent → Option accept_state
  | [] => some s
  | e :: es =>
    match accept_step s e with
    | none => none
    | some s1 => accept_run s1 es

/-- The state of `main` when it reaches the loop for the first time. -/
def accept_start : accept_state :=
  { nclients := 0, accepting := false, returned := false, tid_indices := [] }

/-- Is `i` an index of the array `pthread_t tid[MAX_CLIENTS]`? -/
def valid_tid_index (i : Int) : Bool :=
  decide (0 ≤ i ∧ i < MAX_CLIENTS)

/-- Five connections arrive and no receiver ends in between. -/
def five_arrivals : List AcceptEvent :=
  [AcceptEvent.test, AcceptEvent.arrival, AcceptEvent.test, AcceptEvent.arrival,
   AcceptEvent.test, AcceptEvent.arrival, AcceptEvent.test, AcceptEvent.arrival,
   AcceptEvent.test, AcceptEvent.arrival]

/-- Two counters inside one window of `C` consecutive values that fall on the
same slot are equal. -/
theorem mod_window_inj {C a j k : Nat} (hj : a ≤ j) (hk : a ≤ k) (hjC : j < a + C)
    (hkC : k < a + C) (h : j % C = k % C) : j = k := by
  rcases Nat.le_total j k with hle | hle
  · have h0 : (k - j) % C = 0 := Nat.sub_mod_eq_zero_of_mod_eq h.symm
    have hlt : k - j < C := by omega
    have : k - j = 0 := by
      rw [Nat.mod_eq_of_lt hlt] at h0
      exact h0
    omega
  · have h0 : (j - k) % C = 0 := Nat.sub_mod_eq_zero_of_mod_eq h
    have hlt : j - k < C := by omega
    have : j - k = 0 := by
      rw [Nat.mod_eq_of_lt hlt] at h0
      exact h0
    omega

/-- For a power-of-two capacity the mask is the remainder. -/
theorem slot_index_pow (k x : Nat) : slot_index x (2 ^ k) = x % 2 ^ k := by
  have hpos : 0 < 2 ^ k := Nat.pos_pow_of_pos k (by decide)
  unfold slot_index
  rw [if_neg (by omega)]
  exact Nat.and_pow_two_sub_one_eq_mod x k

/-- The state after `init_buf` satisfies the invariant. -/
theorem Inv_init (C : Nat) : Inv C [] (init_sys C) := by
  refine ⟨rfl, by simp [init_sys, init_buf], rfl, rfl, by simp [init_sys, init_buf, ProcPC.inflight],
    by simp [init_sys, ProcPC.inflight], rfl, rfl, ?_, ?_, ?_⟩
  · intro slot h
    rcases h with h | h <;> simp [init_sys] at h
  · intro j _ hj
    simp [init_sys, init_buf] at hj
  · intro i hi _
    refine ⟨empty_item, ?_, rfl⟩
    simp [init_sys, init_buf, List.getElem?_replicate, hi]

/-- A step that leaves the slots, the indices and the drained items alone keeps
the invariant once the two semaphore balances are re-established. -/
theorem Inv_of_same_data {C : Nat} {enq : List buf_item} {s t : Sys} (h : Inv C enq s)
    (hn : t.buf.n_items = s.buf.n_items) (hd : t.buf.data = s.buf.data)
    (hr : t.buf.read = s.buf.read) (hw : t.buf.write = s.buf.write)
    (hdr : t.drained = s.drained) (hum : t.pc.unmarked = s.pc.unmarked)
    (hup : t.pc.unprocessed = s.pc.unprocessed)
    (hslot : ∀ slot, (t.pc = ProcPC.holding slot ∨ t.pc = ProcPC.processed slot) →
      (s.pc = ProcPC.holding slot ∨ s.pc = ProcPC.processed slot))
    (hcount : t.buf.countsem + t.posting + t.buf.read + t.pc.waitedFlag = t.buf.write)
    (hspace : t.buf.spacesem + t.reserved + t.buf.write + t.pc.inflight ≤ C + t.buf.read)
    (hR : t.pc.inflight ≤ t.buf.read) : Inv C enq t := by
  refine ⟨by rw [hn]; exact h.hn, by rw [hd]; exact h.hlen, by rw [hw]; exact h.hW, hcount,
    hspace, hR, by rw [hdr, hup, hr]; exact h.hdl, by rw [hdr]; exact h.hdr, ?_, ?_, ?_⟩
  · intro slot hs
    rw [hr]
    exact h.hslot slot (hslot slot hs)
  · intro j hj hjw
    rw [hd]
    rw [hr, hum] at hj
    rw [hw] at hjw
    exact h.hdata j hj hjw
  · intro i hi hno
    rw [hd]
    refine h.hempty i hi ?_
    intro j hj hjw
    refine hno j ?_ ?_
    · rw [hr, hum]; exact hj
    · rw [hw]; exact hjw

/-- The step `reserve` keeps the invariant. -/
theorem Inv_reserve {C : Nat} {enq : List buf_item} {s t : Sys} (h : Inv C enq s)
    (hs : step s Event.reserve = some t) : Inv C enq t := by
  have hsp := h.hspace
  have hc := h.hcount
  have hR := h.hR
  simp only [step, sem_wait_space] at hs
  split at hs
  · simp at hs
  · rename_i b hb
    split at hb
    · simp at hb
    · simp only [Option.some.injEq] at hb hs
      subst hb
      subst hs
      refine Inv_of_same_data h rfl rfl rfl rfl rfl rfl rfl (fun _ x => x) ?_ ?_ ?_
      · simpa using hc
      · simp only
        omega
      · simpa using hR

/-- The step `enq_post` keeps the invariant. -/
theorem Inv_enq_post {C : Nat} {enq : List buf_item} {s t : Sys} (h : Inv C enq s)
    (hs : step s Event.enq_post = some t) : Inv C enq t := by
  have hsp := h.hspace
  have hc := h.hcount
  have hR := h.hR
  simp only [step, sem_post_count] at hs
  split at hs
  · simp at hs
  · simp only [Option.some.injEq] at hs
    subst hs
    refine Inv_of_same_data h rfl rfl rfl rfl rfl rfl rfl (fun _ x => x) ?_ ?_ ?_
    · simp only
      omega
    · simpa using hsp
    · simpa using hR

/-- The step `release` keeps the invariant. -/
theorem Inv_release {C : Nat} {enq : List buf_item} {s t : Sys} (h : Inv C enq s)
    (hs : step s Event.release = some t) : Inv C enq t := by
  have hsp := h.hspace
  have hc := h.hcount
  have hR := h.hR
  simp only [step, sem_post_space] at hs
  split at hs
  · simp at hs
  · simp only [Option.some.injEq] at hs
    subst hs
    refine Inv_of_same_data h rfl rfl rfl rfl rfl rfl rfl (fun _ x => x) ?_ ?_ ?_
    · simpa using hc
    · simp only
      omega
    · simpa using hR

/-- The step `abandon` keeps the invariant. -/
theorem Inv_abandon {C : Nat} {enq : List buf_item} {s t : Sys} (h : Inv C enq s)
    (hs : step s Event.abandon = some t) : Inv C enq t := by
  have hsp := h.hspace
  have hc := h.hcount
  have hR := h.hR
  simp only [step] at hs
  split at hs
  · simp at hs
  · simp only [Option.some.injEq] at hs
    subst hs
    refine Inv_of_same_data h rfl rfl rfl rfl rfl rfl rfl (fun _ x => x) ?_ ?_ ?_
    · simpa using hc
    · simp only
      omega
    · simpa using hR

/-- The step `deq_wait` keeps the invariant. -/
theorem Inv_deq_wait {C : Nat} {enq : List buf_item} {s t : Sys} (h : Inv C enq s)
    (hs : step s Event.deq_wait = some t) : Inv C enq t := by
  have hsp := h.hspace
  have hc := h.hcount
  have hR := h.hR
  simp only [step, sem_wait_count] at hs
  split at hs
  · rename_i hpc
    split at hs
    · simp at hs
    · rename_i b hb
      split at hb
      · simp at hb
      · simp only [Option.some.injEq] at hb hs
        subst hb
        subst hs
        simp only [hpc, ProcPC.waitedFlag, ProcPC.inflight] at hsp hc hR
        refine Inv_of_same_data h rfl rfl rfl rfl rfl ?_ ?_ ?_ ?_ ?_ ?_
        · simp [hpc, ProcPC.unmarked]
        · simp [hpc, ProcPC.unprocessed]
        · intro slot hx
          simp at hx
        · simp only [ProcPC.waitedFlag]
          omega
        · simp only [ProcPC.inflight]
          omega
        · simp [ProcPC.inflight]
  · simp at hs

/-- The step `deq_post` keeps the invariant. -/
theorem Inv_deq_post {C : Nat} {enq : List buf_item} {s t : Sys} (h : Inv C enq s)
    (hs : step s Event.deq_post = some t) : Inv C enq t := by
  have hsp := h.hspace
  have hc := h.hcount
  have hR := h.hR
  simp only [step, sem_post_space] at hs
  split at hs
  · rename_i hpc
    simp only [Option.some.injEq] at hs
    subst hs
    simp only [hpc, ProcPC.waitedFlag, ProcPC.inflight] at hsp hc hR
    refine Inv_of_same_data h rfl rfl rfl rfl rfl ?_ ?_ ?_ ?_ ?_ ?_
    · simp [hpc, ProcPC.unmarked]
    · simp [hpc, ProcPC.unprocessed]
    · intro slot hx
      simp at hx
    · simp only [ProcPC.waitedFlag]
      omega
    · simp only [ProcPC.inflight]
      omega
    · simp [ProcPC.inflight]
  · simp at hs

/-- The step `deq_take` keeps the invariant. -/
theorem Inv_deq_take {C : Nat} {enq : List buf_item} {s t : Sys}
    (hmask : ∀ x, slot_index x C = x % C) (h : Inv C enq s)
    (hs : step s Event.deq_take = some t) : Inv C enq t := by
  have hsp := h.hspace
  have hc := h.hcount
  have hR := h.hR
  have hdl := h.hdl
  simp only [step, dequeue_take] at hs
  split at hs
  · rename_i hpc
    simp only [Option.some.injEq] at hs
    subst hs
    simp only [hpc, ProcPC.waitedFlag, ProcPC.inflight, ProcPC.unprocessed] at hsp hc hR hdl
    refine ⟨h.hn, h.hlen, h.hW, ?_, ?_, ?_, ?_, h.hdr, ?_, ?_, ?_⟩
    · simp only [ProcPC.waitedFlag]
      omega
    · simp only [ProcPC.inflight]
      omega
    · simp [ProcPC.inflight]
    · simp only [ProcPC.unprocessed]
      omega
    · intro slot hx
      simp only [ProcPC.holding.injEq, reduceCtorEq, or_false] at hx
      rw [← hx, h.hn, hmask]
      simp
    · intro j hj hjw
      simp only [ProcPC.unmarked] at hj
      refine h.hdata j ?_ hjw
      simp only [hpc, ProcPC.unmarked]
      omega
    · intro i hi hno
      refine h.hempty i hi ?_
      intro j hj hjw
      refine hno j ?_ hjw
      simp only [hpc, ProcPC.unmarked] at hj
      simp only [ProcPC.unmarked]
      omega
  · simp at hs

/-- An item that is not yet marked has not been posted back either. -/
theorem ProcPC.unmarked_le_inflight (pc : ProcPC) : pc.unmarked ≤ pc.inflight := by
  cases pc <;> simp [ProcPC.unmarked, ProcPC.inflight]

/-- An item that is not yet processed is not yet marked either. -/
theorem ProcPC.unprocessed_le_unmarked (pc : ProcPC) : pc.unprocessed ≤ pc.unmarked := by
  cases pc <;> simp [ProcPC.unmarked, ProcPC.unprocessed]

/-- The step `deq_process` keeps the invariant: `process_item` sees the packet
stored by the matching `enqueue`. -/
theorem Inv_deq_process {C : Nat} {enq : List buf_item} {s t : Sys} (h : Inv C enq s)
    (hs : step s Event.deq_process = some t) : Inv C enq t := by
  have hsp := h.hspace
  have hc := h.hcount
  have hR := h.hR
  have hdl := h.hdl
  simp only [step] at hs
  split at hs
  · rename_i slot hpc
    split at hs
    · simp at hs
    · rename_i item hitem
      simp only [Option.some.injEq] at hs
      subst hs
      simp only [hpc, ProcPC.waitedFlag, ProcPC.inflight, ProcPC.unprocessed] at hsp hc hR hdl
      have hslot := h.hslot slot (Or.inl hpc)
      have hd := h.hdata (s.buf.read - 1) (by simp only [hpc, ProcPC.unmarked]; omega) (by omega)
      rw [← hslot, hitem] at hd
      have hdlen : s.drained.length = s.buf.read - 1 := by omega
      refine ⟨h.hn, h.hlen, h.hW, ?_, ?_, ?_, ?_, ?_, ?_, ?_, ?_⟩
      · simpa [ProcPC.waitedFlag] using hc
      · simpa [ProcPC.inflight] using hsp
      · simp [ProcPC.inflight]
        omega
      · simp only [List.length_append, List.length_singleton, ProcPC.unprocessed]
        omega
      · simp only [List.length_append, List.length_singleton]
        rw [List.take_succ, ← h.hdr, hdlen, ← hd]
        rfl
      · intro slot2 hx
        simp only [reduceCtorEq, ProcPC.processed.injEq, false_or] at hx
        rw [← hx]
        exact hslot
      · intro j hj hjw
        refine h.hdata j ?_ hjw
        simpa [hpc, ProcPC.unmarked] using hj
      · intro i hi hno
        refine h.hempty i hi ?_
        intro j hj hjw
        refine hno j ?_ hjw
        simpa [hpc, ProcPC.unmarked] using hj
  · simp at hs

/-- The step `deq_mark` keeps the invariant. -/
theorem Inv_deq_mark {C : Nat} {enq : List buf_item} {s t : Sys} (hC : 0 < C)
    (h : Inv C enq s) (hs : step s Event.deq_mark = some t) : Inv C enq t := by
  have hsp := h.hspace
  have hc := h.hcount
  have hR := h.hR
  have hdl := h.hdl
  simp only [step] at hs
  split at hs
  · rename_i slot hpc
    simp only [Option.some.injEq] at hs
    subst hs
    simp only [hpc, ProcPC.waitedFlag, ProcPC.inflight, ProcPC.unprocessed] at hsp hc hR hdl
    have hslot := h.hslot slot (Or.inr hpc)
    have hslotlt : slot < s.buf.data.length := by
      rw [h.hlen, hslot]
      exact Nat.mod_lt _ hC
    obtain ⟨item, hitem⟩ : ∃ item, s.buf.data[slot]? = some item :=
      ⟨s.buf.data[slot], List.getElem?_eq_getElem hslotlt⟩
    have hmark : mark_processed s.buf slot =
        { s.buf with data := s.buf.data.set slot { item with id := -1 } } := by
      simp only [mark_processed, hitem]
    rw [hmark]
    refine ⟨h.hn, by simpa using h.hlen, h.hW, ?_, ?_, ?_, ?_, h.hdr, ?_, ?_, ?_⟩
    · simpa [ProcPC.waitedFlag] using hc
    · simpa [ProcPC.inflight] using hsp
    · simp [ProcPC.inflight]
      omega
    · simpa [ProcPC.unprocessed] using hdl
    · intro slot2 hx
      simp at hx
    · intro j hj hjw
      simp only [ProcPC.unmarked, Nat.add_zero] at hj
      simp only at hjw
      have hne : slot ≠ j % C := by
        intro heq
        rw [hslot] at heq
        have := mod_window_inj (a := s.buf.read - 1) (C := C) (j := s.buf.read - 1) (k := j)
          (Nat.le_refl _) (by omega) (by omega) (by omega) heq
        omega
      simp only
      rw [List.getElem?_set_ne hne]
      refine h.hdata j ?_ hjw
      simp only [hpc, ProcPC.unmarked]
      omega
    · intro i hi hno
      simp only
      by_cases hisl : slot = i
      · subst hisl
        refine ⟨{ item with id := -1 }, ?_, rfl⟩
        exact List.getElem?_set_self hslotlt
      · rw [List.getElem?_set_ne hisl]
        refine h.hempty i hi ?_
        intro j hj hjw
        simp only [hpc, ProcPC.unmarked] at hj
        by_cases hjr : s.buf.read ≤ j
        · exact hno j (by simpa [ProcPC.unmarked] using hjr) hjw
        · have : j = s.buf.read - 1 := by omega
          rw [this, ← hslot]
          exact hisl
  · simp at hs

/-- What the invariant says at the moment a receiver that holds a reservation
is about to copy a packet: the target slot lies outside the window of
unconsumed packets. -/
theorem Inv_target_free {C : Nat} {enq : List buf_item} {s : Sys} (h : Inv C enq s)
    (hres : s.reserved ≠ 0) :
    ∀ j, s.buf.read ≤ j + s.pc.unmarked → j < s.buf.write → j % C ≠ s.buf.write % C := by
  intro j hj hjw heq
  have hsp := h.hspace
  have hR := h.hR
  have hle := ProcPC.unmarked_le_inflight s.pc
  have := mod_window_inj (a := s.buf.read - s.pc.unmarked) (C := C) (j := j) (k := s.buf.write)
    (by omega) (by omega) (by omega) (by omega) heq
  omega

/-- The step `enq_copy` keeps the invariant, for the packet list extended by the
copied packet. -/
theorem Inv_enq_copy {C : Nat} {enq : List buf_item} {s t : Sys} {p : buf_item} (hC : 0 < C)
    (hmask : ∀ x, slot_index x C = x % C) (h : Inv C enq s)
    (hs : step s (Event.enq_copy p) = some t) : Inv C (enq ++ [p]) t := by
  have hsp := h.hspace
  have hc := h.hcount
  have hR := h.hR
  have hdl := h.hdl
  have hW := h.hW
  simp only [step, enqueue_copy] at hs
  split at hs
  · simp at hs
  · rename_i hres
    simp only [Option.some.injEq] at hs
    subst hs
    have hfree := Inv_target_free h hres
    have hidx : slot_index s.buf.write s.buf.n_items = s.buf.write % C := by
      rw [h.hn, hmask]
    have hlt : s.buf.write % C < s.buf.data.length := by
      rw [h.hlen]
      exact Nat.mod_lt _ hC
    rw [hidx]
    refine ⟨h.hn, by simpa using h.hlen, by simp [hW], ?_, ?_, hR, hdl, ?_, h.hslot, ?_, ?_⟩
    · simp only
      omega
    · simp only
      omega
    · have hup := ProcPC.unprocessed_le_unmarked s.pc
      have hum := ProcPC.unmarked_le_inflight s.pc
      have hle : s.drained.length ≤ enq.length := by omega
      simp only
      rw [List.take_append_of_le_length hle]
      exact h.hdr
    · intro j hj hjw
      simp only at hj hjw
      simp only
      by_cases hjW : j = s.buf.write
      · subst hjW
        rw [List.getElem?_set_self hlt, ← hW]
        simp
      · have hjlt : j < s.buf.write := by omega
        have hne := hfree j hj hjlt
        rw [List.getElem?_set_ne (fun e => hne e.symm), List.getElem?_append_left (by omega)]
        exact h.hdata j hj hjlt
    · intro i hi hno
      simp only at hno
      simp only
      have hne : s.buf.write % C ≠ i := hno s.buf.write (by omega) (by omega)
      rw [List.getElem?_set_ne hne]
      refine h.hempty i hi ?_
      intro j hj hjw
      exact hno j hj (by omega)

/-- The packets of a run split at its first step. -/
theorem enqueued_cons (e : Event) (es : List Event) :
    enqueued (e :: es) = enqueued [e] ++ enqueued es := by
  cases e <;> simp [enqueued]

/-- Every enabled step keeps the invariant. -/
theorem Inv_step {C : Nat} {enq : List buf_item} {s t : Sys} (e : Event) (hC : 0 < C)
    (hmask : ∀ x, slot_index x C = x % C) (h : Inv C enq s) (hs : step s e = some t) :
    Inv C (enq ++ enqueued [e]) t := by
  cases e with
  | reserve => simpa [enqueued] using Inv_reserve h hs
  | enq_copy p => simpa [enqueued] using Inv_enq_copy hC hmask h hs
  | enq_post => simpa [enqueued] using Inv_enq_post h hs
  | release => simpa [enqueued] using Inv_release h hs
  | abandon => simpa [enqueued] using Inv_abandon h hs
  | deq_wait => simpa [enqueued] using Inv_deq_wait h hs
  | deq_take => simpa [enqueued] using Inv_deq_take hmask h hs
  | deq_process => simpa [enqueued] using Inv_deq_process h hs
  | deq_mark => simpa [enqueued] using Inv_deq_mark hC h hs
  | deq_post => simpa [enqueued] using Inv_deq_post h hs

/-- Every run keeps the invariant. -/
theorem Inv_run {C : Nat} (hC : 0 < C) (hmask : ∀ x, slot_index x C = x % C) :
    ∀ (es : List Event) (enq : List buf_item) (s t : Sys), Inv C enq s → run s es = some t →
      Inv C (enq ++ enqueued es) t := by
  intro es
  induction es with
  | nil =>
    intro enq s t h hr
    simp only [run, Option.some.injEq] at hr
    subst hr
    simpa [enqueued] using h
  | cons e es ih =>
    intro enq s t h hr
    simp only [run] at hr
    split at hr
    · simp at hr
    · rename_i s1 hs1
      have h1 := Inv_step e hC hmask h hs1
      have h2 := ih _ s1 t h1 hr
      rw [enqueued_cons, ← List.append_assoc]
      exact h2

/-- Every state reached from `init_buf (2 ^ k)` satisfies the invariant. -/
theorem Inv_reachable (k : Nat) (es : List Event) (s : Sys)
    (hr : run (init_sys (2 ^ k)) es = some s) : Inv (2 ^ k) (enqueued es) s := by
  have hpos : 0 < 2 ^ k := Nat.pos_pow_of_pos k (by decide)
  have := Inv_run hpos (slot_index_pow k) es [] _ s (Inv_init _) hr
  simpa using this

/-- Overwriting one slot changes the number of occupied slots by the difference
between the new and the old content. -/
theorem countP_set_getElem? (q : buf_item → Bool) (l : List buf_item) (i : Nat)
    (old new : buf_item) (h : l[i]? = some old) :
    (l.set i new).countP q + (if q old = true then 1 else 0) =
      l.countP q + (if q new = true then 1 else 0) := by
  obtain ⟨hlt, heq⟩ := List.getElem?_eq_some.1 h
  have hle := List.boole_getElem_le_countP q l i hlt
  rw [List.countP_set q l i new hlt, heq]
  rw [heq] at hle
  omega

/-- The balance between occupied slots and the two indices is kept by every
enabled step, as long as no packet carries the reserved id `-1`. -/
theorem count_step {C : Nat} {enq : List buf_item} {s t : Sys} (e : Event) (hC : 0 < C)
    (hmask : ∀ x, slot_index x C = x % C) (h : Inv C enq s)
    (hid : ∀ p ∈ enq ++ enqueued [e], p.id ≠ -1)
    (hcnt : occupied s.buf + s.buf.read = s.buf.write + s.pc.unmarked)
    (hs : step s e = some t) :
    occupied t.buf + t.buf.read = t.buf.write + t.pc.unmarked := by
  cases e with
  | reserve =>
    simp only [step, sem_wait_space] at hs
    split at hs
    · simp at hs
    · rename_i b hb
      split at hb
      · simp at hb
      · simp only [Option.some.injEq] at hb hs
        subst hb
        subst hs
        exact hcnt
  | enq_copy p =>
    simp only [step, enqueue_copy] at hs
    split at hs
    · simp at hs
    · rename_i hres
      simp only [Option.some.injEq] at hs
      subst hs
      have hfree := Inv_target_free h hres
      obtain ⟨old, hold, holdid⟩ := h.hempty (s.buf.write % C)
        (Nat.mod_lt _ hC) hfree
      have hidx : slot_index s.buf.write s.buf.n_items = s.buf.write % C := by
        rw [h.hn, hmask]
      have hp : p.id ≠ -1 := hid p (by simp [enqueued])
      have hset := countP_set_getElem? (fun item => decide (item.id ≠ -1)) s.buf.data
        (s.buf.write % C) old p hold
      simp only [holdid, hp, ne_eq, not_true_eq_false, decide_False, Bool.false_eq_true,
        if_false, not_false_eq_true, decide_True, if_true, Nat.add_zero] at hset
      simp only [occupied, hidx, ne_eq]
      simp only [occupied, ne_eq] at hcnt
      omega
  | enq_post =>
    simp only [step, sem_post_count] at hs
    split at hs
    · simp at hs
    · simp only [Option.some.injEq] at hs
      subst hs
      exact hcnt
  | release =>
    simp only [step, sem_post_space] at hs
    split at hs
    · simp at hs
    · simp only [Option.some.injEq] at hs
      subst hs
      exact hcnt
  | abandon =>
    simp only [step] at hs
    split at hs
    · simp at hs
    · simp only [Option.some.injEq] at hs
      subst hs
      exact hcnt
  | deq_wait =>
    simp only [step, sem_wait_count] at hs
    split at hs
    · rename_i hpc
      split at hs
      · simp at hs
      · rename_i b hb
        split at hb
        · simp at hb
        · simp only [Option.some.injEq] at hb hs
          subst hb
          subst hs
          simpa [hpc, ProcPC.unmarked, occupied] using hcnt
    · simp at hs
  | deq_take =>
    simp only [step, dequeue_take] at hs
    split at hs
    · rename_i hpc
      simp only [Option.some.injEq] at hs
      subst hs
      simp only [hpc, ProcPC.unmarked, occupied] at hcnt
      simp only [ProcPC.unmarked, occupied]
      omega
    · simp at hs
  | deq_process =>
    simp only [step] at hs
    split at hs
    · rename_i slot hpc
      split at hs
      · simp at hs
      · simp only [Option.some.injEq] at hs
        subst hs
        simpa [hpc, ProcPC.unmarked, occupied] using hcnt
    · simp at hs
  | deq_mark =>
    have hc := h.hcount
    have hR := h.hR
    simp only [step] at hs
    split at hs
    · rename_i slot hpc
      simp only [Option.some.injEq] at hs
      subst hs
      simp only [hpc, ProcPC.waitedFlag, ProcPC.inflight] at hc hR
      have hslot := h.hslot slot (Or.inr hpc)
      have hd := h.hdata (s.buf.read - 1) (by simp only [hpc, ProcPC.unmarked]; omega)
        (by omega)
      rw [← hslot] at hd
      have hlt : s.buf.read - 1 < enq.length := by rw [h.hW]; omega
      rw [List.getElem?_eq_getElem hlt] at hd
      have hitemid : (enq[s.buf.read - 1]).id ≠ -1 :=
        hid _ (by simp [enqueued, List.getElem_mem])
      have hset := countP_set_getElem? (fun item => decide (item.id ≠ -1)) s.buf.data
        slot _ { enq[s.buf.read - 1] with id := -1 } hd
      simp only [hitemid, ne_eq, not_true_eq_false, decide_False, Bool.false_eq_true,
        if_false, not_false_eq_true, decide_True, if_true, Nat.add_zero] at hset
      simp only [hpc, ProcPC.unmarked, occupied, ne_eq] at hcnt
      simp only [mark_processed, hd, ProcPC.unmarked, occupied, ne_eq]
      omega
    · simp at hs
  | deq_post =>
    simp only [step, sem_post_space] at hs
    split at hs
    · rename_i hpc
      simp only [Option.some.injEq] at hs
      subst hs
      simpa [hpc, ProcPC.unmarked, occupied] using hcnt
    · simp at hs

/-- The balance between occupied slots and the two indices holds after every run. -/
theorem count_run {C : Nat} (hC : 0 < C) (hmask : ∀ x, slot_index x C = x % C) :
    ∀ (es : List Event) (enq : List buf_item) (s t : Sys), Inv C enq s →
      (∀ p ∈ enq ++ enqueued es, p.id ≠ -1) →
      occupied s.buf + s.buf.read = s.buf.write + s.pc.unmarked →
      run s es = some t →
      occupied t.buf + t.buf.read = t.buf.write + t.pc.unmarked := by
  intro es
  induction es with
  | nil =>
    intro enq s t _ _ hcnt hr
    simp only [run, Option.some.injEq] at hr
    subst hr
    exact hcnt
  | cons e es ih =>
    intro enq s t h hid hcnt hr
    simp only [run] at hr
    split at hr
    · simp at hr
    · rename_i s1 hs1
      rw [enqueued_cons, ← List.append_assoc] at hid
      have h1 := Inv_step e hC hmask h hs1
      have hid1 : ∀ p ∈ enq ++ enqueued [e], p.id ≠ -1 := by
        intro p hp
        exact hid p (List.mem_append_left _ hp)
      have hc1 := count_step e hC hmask h hid1 hcnt hs1
      exact ih _ s1 t h1 hid hc1 hr

/-- After `init_buf` no slot is occupied. -/
theorem occupied_init (C : Nat) : occupied (init_buf C) = 0 := by
  simp [occupied, init_buf, List.countP_eq_zero, empty_item]

/-- C1: for a power-of-two capacity and every interleaving that respects the
semaphore protocol, at the moment a receiver that holds a space credit copies a
packet into the buffer, the target slot has `id = -1`, the processor is not
holding that slot, and every earlier packet stored in that slot has already
been handed to `process_item`. -/
theorem enqueue_target_slot_is_empty (k : Nat) (es : List Event) (s t : Sys) (p : buf_item)
    (hr : run (init_sys (2 ^ k)) es = some s) (hs : step s (Event.enq_copy p) = some t) :
    (∃ item, s.buf.data[slot_index s.buf.write s.buf.n_items]? = some item ∧ item.id = -1) ∧
    s.pc ≠ ProcPC.holding (slot_index s.buf.write s.buf.n_items) ∧
    s.pc ≠ ProcPC.processed (slot_index s.buf.write s.buf.n_items) ∧
    (∀ j, j < s.buf.write →
      slot_index j s.buf.n_items = slot_index s.buf.write s.buf.n_items →
      j < s.drained.length ∧ s.drained[j]? = (enqueued es)[j]?) := by
  have hpos : 0 < 2 ^ k := Nat.pos_pow_of_pos k (by decide)
  have h := Inv_reachable k es s hr
  have hres : s.reserved ≠ 0 := by
    intro h0
    simp [step, h0] at hs
  have hfree := Inv_target_free h hres
  have hsp := h.hspace
  have hR := h.hR
  have hdl := h.hdl
  have hc := h.hcount
  have hum := ProcPC.unmarked_le_inflight s.pc
  have hup := ProcPC.unprocessed_le_unmarked s.pc
  rw [h.hn, slot_index_pow]
  refine ⟨h.hempty _ (Nat.mod_lt _ hpos) hfree, ?_, ?_, ?_⟩
  · intro hpc
    have hslot := h.hslot _ (Or.inl hpc)
    simp only [hpc, ProcPC.inflight, ProcPC.unmarked, ProcPC.waitedFlag] at hsp hR hfree hc
    exact hfree (s.buf.read - 1) (by omega) (by omega) hslot.symm
  · intro hpc
    have hslot := h.hslot _ (Or.inr hpc)
    simp only [hpc, ProcPC.inflight, ProcPC.unmarked, ProcPC.waitedFlag] at hsp hR hfree hc
    exact hfree (s.buf.read - 1) (by omega) (by omega) hslot.symm
  · intro j hjw hjs
    rw [slot_index_pow] at hjs
    have hjd : j < s.drained.length := by
      by_contra hnot
      exact hfree j (by omega) hjw hjs
    refine ⟨hjd, ?_⟩
    rw [h.hdr, List.getElem?_take_of_lt hjd]

/-- C1, at a concrete run: capacity 4, four packets enqueued, one drained, and a
receiver about to reuse slot 0. -/
theorem enqueue_target_slot_is_empty_witness :
    ∃ s t, run (init_sys (2 ^ 2)) reuse_slot_run = some s ∧
      step s (Event.enq_copy (packet_with_id 4)) = some t ∧
      s.buf.write = 4 ∧ slot_index s.buf.write s.buf.n_items = 0 ∧
      (∃ item, s.buf.data[slot_index s.buf.write s.buf.n_items]? = some item ∧ item.id = -1) ∧
      s.pc ≠ ProcPC.holding (slot_index s.buf.write s.buf.n_items) ∧
      s.pc ≠ ProcPC.processed (slot_index s.buf.write s.buf.n_items) ∧
      (∀ j, j < s.buf.write →
        slot_index j s.buf.n_items = slot_index s.buf.write s.buf.n_items →
        j < s.drained.length ∧ s.drained[j]? = (enqueued reuse_slot_run)[j]?) :=
  ⟨_, _, rfl, rfl, rfl, rfl,
    enqueue_target_slot_is_empty 2 reuse_slot_run _ _ (packet_with_id 4) rfl rfl⟩

/-- C2: for a power-of-two capacity and every interleaving that respects the
semaphore protocol (any number of receivers), the items handed to
`process_item` are, in order, the first packets copied into the buffer: the
j-th drained item is the j-th enqueued packet, and every packet not yet
drained still sits unchanged in its slot. -/
theorem drained_is_prefix_of_enqueued (k : Nat) (es : List Event) (s : Sys)
    (hr : run (init_sys (2 ^ k)) es = some s) :
    s.drained <+: enqueued es ∧
    (∀ j, j < s.drained.length → s.drained[j]? = (enqueued es)[j]?) ∧
    (∀ j, s.drained.length ≤ j → j < (enqueued es).length →
      s.buf.data[slot_index j (2 ^ k)]? = (enqueued es)[j]?) := by
  have h := Inv_reachable k es s hr
  have hdl := h.hdl
  have hup := ProcPC.unprocessed_le_unmarked s.pc
  refine ⟨List.prefix_iff_eq_take.2 h.hdr, ?_, ?_⟩
  · intro j hj
    rw [h.hdr, List.getElem?_take_of_lt hj]
  · intro j hj hjl
    rw [slot_index_pow]
    exact h.hdata j (by omega) (by rw [← h.hW]; exact hjl)

/-- C2, Scenario A: capacity 4, one receiver enqueueing ids 0..9 ahead of a slow
processor; a fifth reservation blocks while the buffer is full, and the drained
order is 0,1,...,9. -/
theorem drained_is_prefix_of_enqueued_witness :
    ∃ s, run (init_sys (2 ^ 2)) scenario_A = some s ∧
      run (init_sys (2 ^ 2)) (produce [0, 1, 2, 3] ++ [Event.reserve]) = none ∧
      s.drained.map (fun item => item.id) = [0, 1, 2, 3, 4, 5, 6, 7, 8, 9] ∧
      (s.drained <+: enqueued scenario_A ∧
      (∀ j, j < s.drained.length → s.drained[j]? = (enqueued scenario_A)[j]?) ∧
      (∀ j, s.drained.length ≤ j → j < (enqueued scenario_A).length →
        s.buf.data[slot_index j (2 ^ 2)]? = (enqueued scenario_A)[j]?)) :=
  ⟨_, rfl, rfl, rfl, drained_is_prefix_of_enqueued 2 scenario_A _ rfl⟩

/-- C3 (refuted as stated): capacity 4, the packets 0 and 1 enqueued, the
processor inside `dequeue` after `read++` and before `item->id = -1`, then
packet 2 enqueued by a complete `enqueue`: three slots have `id != -1` while
`write - read` is 2. -/
theorem occupied_exceeds_write_sub_read :
    ∃ s, run (init_sys (2 ^ 2)) mid_dequeue_run = some s ∧
      (∀ p ∈ enqueued mid_dequeue_run, p.id ≠ -1) ∧
      s.buf.write = 3 ∧ s.buf.read = 1 ∧ occupied s.buf = 3 ∧
      occupied s.buf ≠ s.buf.write - s.buf.read :=
  ⟨_, rfl, by decide, rfl, rfl, rfl, by decide⟩

/-- C3 (amended): in every state reached from `init_buf` with a power-of-two
capacity by steps that respect the semaphore protocol, `0 <= write - read <=
capacity`; and when only packets with `id != -1` are enqueued, the number of
slots with `id != -1` is `write - read`, plus one exactly while the processor
stands between advancing `read` and marking its slot (`unmarked` is 1 in the
positions `holding` and `processed`, else 0). -/
theorem occupied_eq_outstanding (k : Nat) (es : List Event) (s : Sys)
    (hr : run (init_sys (2 ^ k)) es = some s) :
    s.buf.read ≤ s.buf.write ∧ s.buf.write - s.buf.read ≤ 2 ^ k ∧
    ((∀ p ∈ enqueued es, p.id ≠ -1) →
      occupied s.buf = s.buf.write - s.buf.read + s.pc.unmarked ∧
      ((∀ slot, s.pc ≠ ProcPC.holding slot ∧ s.pc ≠ ProcPC.processed slot) →
        occupied s.buf = s.buf.write - s.buf.read)) := by
  have hpos : 0 < 2 ^ k := Nat.pos_pow_of_pos k (by decide)
  have h := Inv_reachable k es s hr
  have hsp := h.hspace
  have hc := h.hcount
  have hR := h.hR
  refine ⟨by omega, by omega, ?_⟩
  intro hid
  have hcnt := count_run hpos (slot_index_pow k) es [] (init_sys (2 ^ k)) s (Inv_init _)
    (by simpa using hid)
    (by have h0 := occupied_init (2 ^ k); simpa [init_sys, init_buf, ProcPC.unmarked] using h0) hr
  refine ⟨by omega, ?_⟩
  intro hpc
  have hum : s.pc.unmarked = 0 := by
    cases hp : s.pc with
    | holding slot => exact absurd hp (hpc slot).1
    | processed slot => exact absurd hp (hpc slot).2
    | idle => rfl
    | waited => rfl
    | marked => rfl
  rw [hum] at hcnt
  omega

/-- C3 (amended), at two concrete runs of a capacity-4 buffer: between whole
operations (three packets in, one out) two slots are occupied and `write -
read` is 2; inside a `dequeue` three slots are occupied and `write - read` is 2. -/
theorem occupied_eq_outstanding_witness :
    (∃ s, run (init_sys (2 ^ 2)) three_in_one_out = some s ∧
      (∀ p ∈ enqueued three_in_one_out, p.id ≠ -1) ∧
      s.buf.write = 3 ∧ s.buf.read = 1 ∧ s.pc.unmarked = 0 ∧ occupied s.buf = 2 ∧
      occupied s.buf = s.buf.write - s.buf.read + s.pc.unmarked) ∧
    (∃ s, run (init_sys (2 ^ 2)) mid_dequeue_run = some s ∧
      s.buf.read ≤ s.buf.write ∧ s.buf.write - s.buf.read ≤ 2 ^ 2 ∧
      s.pc.unmarked = 1 ∧ occupied s.buf = 3 ∧
      occupied s.buf = s.buf.write - s.buf.read + s.pc.unmarked) :=
  ⟨⟨_, rfl, by decide, rfl, rfl, rfl, rfl,
      ((occupied_eq_outstanding 2 three_in_one_out _ rfl).2.2 (by decide)).1⟩,
    ⟨_, rfl, (occupied_eq_outstanding 2 mid_dequeue_run _ rfl).1,
      (occupied_eq_outstanding 2 mid_dequeue_run _ rfl).2.1, rfl, rfl,
      ((occupied_eq_outstanding 2 mid_dequeue_run _ rfl).2.2 (by decide)).1⟩⟩

/-- The two halves of a run. -/
theorem run_append (s : Sys) (es es2 : List Event) :
    run s (es ++ es2) = (run s es).bind (fun s1 => run s1 es2) := by
  induction es generalizing s with
  | nil => simp [run]
  | cons e es ih =>
    simp only [List.cons_append, run]
    cases step s e with
    | none => simp
    | some s1 => simpa using ih s1

/-- The packets of the two halves of a run. -/
theorem enqueued_append (es es2 : List Event) :
    enqueued (es ++ es2) = enqueued es ++ enqueued es2 := by
  induction es with
  | nil => simp [enqueued]
  | cons e es ih =>
    rw [List.cons_append, enqueued_cons, enqueued_cons e es, ih, List.append_assoc]

/-- C4 (evidence of the defect): `init_buf(3)`, also when reached through the
server's `-n 3`, builds a buffer with three slots; its mask `3 - 1 = 2` sends
the counters 0 and 1 to the same slot, so the second packet overwrites the
first before it was drained, and two dequeues hand over the ids 1 and -1. -/
theorem init_buf_accepts_three :
    server_buffer (some 3) = init_buf 3 ∧
    (init_buf 3).n_items = 3 ∧ (init_buf 3).data.length = 3 ∧ (init_buf 3).spacesem = 3 ∧
    slot_index 0 3 = 0 ∧ slot_index 1 3 = 0 ∧
    (run (init_sys 3) (produce [0, 1] ++ dequeue_events ++ dequeue_events)).map
      (fun s => s.drained.map (fun item => item.id)) = some [1, -1] := by
  refine ⟨rfl, rfl, rfl, rfl, rfl, rfl, rfl⟩

/-- The 16 bytes of an array are the first 16 bytes of its source. -/
theorem bytes16_getD (l : List Nat) (ii : Nat) (h : ii < MD5_DIGEST_LENGTH) :
    (bytes16 l).getD ii 0 = l.getD ii 0 := by
  simp [bytes16, List.getD_eq_getElem?_getD, List.getElem?_map, List.getElem?_range h]

/-- Copying a 16-byte array again changes nothing. -/
theorem bytes16_idem (l : List Nat) : bytes16 (bytes16 l) = bytes16 l := by
  unfold bytes16
  apply List.map_congr_left
  intro ii hii
  exact bytes16_getD l ii (List.mem_range.1 hii)

/-- The comparison loop returns 1 exactly when the two arrays are equal. -/
theorem compare_checksums_eq (a b : List Nat) :
    compare_checksums (bytes16 a) (bytes16 b) = if bytes16 a = bytes16 b then 1 else 0 := by
  unfold compare_checksums
  by_cases h : bytes16 a = bytes16 b
  · rw [h, if_pos rfl, if_pos]
    simp
  · rw [if_neg h, if_neg]
    intro hall
    apply h
    rw [List.all_eq_true] at hall
    unfold bytes16
    apply List.map_congr_left
    intro ii hii
    have := hall ii hii
    rw [decide_eq_true_eq, bytes16_getD a ii (List.mem_range.1 hii),
      bytes16_getD b ii (List.mem_range.1 hii)] at this
    exact this

/-- The fields that `check_packet` leaves alone, and what it does to the timestamp. -/
theorem check_packet_fields (cfg : Config) (checksum : Nat) (pkt : buf_item) :
    (check_packet cfg checksum pkt).1.id = pkt.id ∧
    (check_packet cfg checksum pkt).1.img_data = pkt.img_data ∧
    (check_packet cfg checksum pkt).1.timestamp =
      (if cfg.use_checksum = true then 0 else pkt.timestamp) := by
  unfold check_packet
  by_cases h : cfg.use_checksum = true
  · simp [h, md5checksum, zero_fields]
  · simp [h]

/-- C5 (refuted as stated): with integrity checking enabled the receiver accepts
`sample_packet` (id 0, payload 7 9, timestamp 5, consistent checksum) and
enqueues it; the item that the following `dequeue` hands to `process_item` has
the same id and payload but timestamp 0. -/
theorem timestamp_lost_with_checksum :
    ∃ st item b,
      client_job (sum_config true) [ready_exchange 20 sample_packet] (init_buf 2) = some st ∧
      st.received = 1 ∧ dequeue st.buf = some (item, b) ∧
      item.id = sample_packet.id ∧ item.img_data = sample_packet.img_data ∧
      sample_packet.timestamp = 5 ∧ item.timestamp = 0 :=
  ⟨_, _, _, rfl, rfl, rfl, rfl, rfl, rfl, rfl⟩

/-- C5 (amended): a packet `pkt` read by a receiver is enqueued as
`(check_packet cfg checksum pkt).1` when it is accepted; for a power-of-two
capacity and every interleaving, the item handed to `process_item` by the
matching dequeue (the one for the write index of that enqueue) has the id and
the payload of `pkt`, and its timestamp is that of `pkt` when integrity
checking is disabled and 0 when it is enabled. -/
theorem accepted_packet_round_trip (cfg : Config) (k : Nat) (es es2 : List Event)
    (s s2 : Sys) (checksum : Nat) (pkt : buf_item)
    (hacc : (check_packet cfg checksum pkt).2 ≠ 0)
    (hr : run (init_sys (2 ^ k)) es = some s)
    (hr2 : run s (Event.enq_copy (check_packet cfg checksum pkt).1 :: es2) = some s2)
    (hd : s.buf.write < s2.drained.length) :
    ∃ item, s2.drained[s.buf.write]? = some item ∧ item.id = pkt.id ∧
      item.img_data = pkt.img_data ∧
      item.timestamp = (if cfg.use_checksum = true then 0 else pkt.timestamp) := by
  have _ := hacc
  have h := Inv_reachable k es s hr
  have hall : run (init_sys (2 ^ k))
      (es ++ Event.enq_copy (check_packet cfg checksum pkt).1 :: es2) = some s2 := by
    rw [run_append, hr]
    exact hr2
  have h2 := Inv_reachable k _ s2 hall
  have hW := h.hW
  refine ⟨(check_packet cfg checksum pkt).1, ?_, check_packet_fields cfg checksum pkt⟩
  rw [h2.hdr, List.getElem?_take_of_lt hd, enqueued_append, enqueued_cons,
    List.getElem?_append_right (by omega), hW]
  simp [enqueued]

/-- C5 (amended), at a concrete run with integrity checking enabled: capacity
2, `sample_packet` accepted, enqueued at write index 0 and drained. -/
theorem accepted_packet_round_trip_witness :
    ∃ s s2 item, (check_packet (sum_config true) 1 sample_packet).2 ≠ 0 ∧
      run (init_sys (2 ^ 1)) [Event.reserve] = some s ∧
      run s (Event.enq_copy (check_packet (sum_config true) 1 sample_packet).1 ::
        (Event.enq_post :: dequeue_events)) = some s2 ∧
      s.buf.write < s2.drained.length ∧
      s2.drained[s.buf.write]? = some item ∧ item.id = sample_packet.id ∧
      item.img_data = sample_packet.img_data ∧
      item.timestamp = (if (sum_config true).use_checksum = true then 0
        else sample_packet.timestamp) := by
  obtain ⟨item, h⟩ := accepted_packet_round_trip (sum_config true) 1
    [Event.reserve] (Event.enq_post :: dequeue_events) _ _ 1 sample_packet (by decide) rfl rfl
    (by decide)
  exact ⟨_, _, item, by decide, rfl, rfl, by decide, h⟩

/-- The value returned by `md5checksum`: 1 exactly when the transmitted checksum
equals the recomputed digest. -/
theorem md5checksum_snd (cfg : Config) (item : buf_item) (length : Nat) :
    (md5checksum cfg item length).2 =
      if bytes16 item.checksum = bytes16 (cfg.md5 (digested_bytes cfg item length))
      then 1 else 0 := by
  unfold md5checksum
  exact compare_checksums_eq _ _

/-- C7 (evidence of the defect): a receiver on a capacity-1 buffer reserves the
slot and leaves through the `break` for a wrong-size packet (7 bytes instead
of 20) without `sem_post`: `spacesem` stays at 0 instead of the 1 before the
reservation, although nothing was enqueued, and the receiver of the next
connection blocks in `sem_wait` on an empty buffer. -/
theorem wrong_size_exit_keeps_reservation :
    ∃ st, client_job (sum_config false) [ready_exchange 7 sample_packet] (init_buf 1) = some st ∧
      (init_buf 1).spacesem = 1 ∧ st.buf.spacesem = 0 ∧ st.buf.countsem = 0 ∧
      st.buf.write = 0 ∧ st.buf.read = 0 ∧ st.received = 0 ∧
      client_job (sum_config false) [ready_exchange 20 sample_packet] st.buf = none :=
  ⟨_, rfl, rfl, rfl, rfl, rfl, rfl, rfl, rfl⟩

/-- The chunked loop feeds the first `length` bytes, each once and in order,
whenever the iteration bound is at least `length` and the chunk is not empty. -/
theorem digest_loop_eq (chunk : Nat) (hchunk : 0 < chunk) :
    ∀ (fuel : Nat) (c read_ptr : List Nat) (length : Nat), length ≤ fuel →
      digest_loop chunk fuel c read_ptr length = c ++ read_ptr.take length := by
  intro fuel
  induction fuel with
  | zero =>
    intro c read_ptr length hle
    have : length = 0 := by omega
    subst this
    simp [digest_loop]
  | succ fuel ih =>
    intro c read_ptr length hle
    rw [digest_loop]
    by_cases h0 : length > 0
    · rw [if_pos h0]
      by_cases h1 : length > chunk
      · rw [if_pos h1, ih _ _ _ (by omega)]
        simp only [MD5_Update, List.append_assoc]
        have hsplit : length = chunk + (length - chunk) := by omega
        conv_rhs => rw [hsplit, List.take_add]
      · rw [if_neg h1]
        rfl
    · rw [if_neg h0]
      have : length = 0 := by omega
      subst this
      simp

/-- The bytes digested by `md5checksum`: the first `length` bytes of the packet
with checksum and timestamp zeroed. -/
theorem digested_bytes_eq (cfg : Config) (item : buf_item) (length : Nat) :
    digested_bytes cfg item length = (cfg.image (zero_fields item)).take length := by
  unfold digested_bytes
  rw [digest_loop_eq MAXLINE (by decide) length [] _ length (Nat.le_refl _)]
  simp

/-- C10: for every digest function, memory image, packet and timestamp `t`: after
the sender has set the checksum with `md5checksum` and stamped `timestamp = t`,
`md5checksum` on the receiver's side returns 1; the checksum is the digest of
the bytes of the packet with checksum and timestamp zeroed, whatever `t`, and
the chunked loop feeds exactly those bytes, each once and in order. -/
theorem stamped_packet_passes_check (cfg : Config) (packet : buf_item) (t : Int)
    (length : Nat) :
    (md5checksum cfg { (md5checksum cfg packet length).1 with timestamp := t } length).2 = 1 ∧
    (md5checksum cfg packet length).1.checksum =
      bytes16 (cfg.md5 ((cfg.image (zero_fields packet)).take length)) ∧
    digested_bytes cfg { (md5checksum cfg packet length).1 with timestamp := t } length =
      (cfg.image (zero_fields packet)).take length ∧
    digest_loop MAXLINE length [] (cfg.image (zero_fields packet)) length =
      (cfg.image (zero_fields packet)).take length := by
  have hz : zero_fields { (md5checksum cfg packet length).1 with timestamp := t } =
      zero_fields packet := by
    simp [zero_fields, md5checksum]
  have hd : digested_bytes cfg { (md5checksum cfg packet length).1 with timestamp := t } length =
      digested_bytes cfg packet length := by
    unfold digested_bytes
    rw [hz]
  refine ⟨?_, ?_, ?_, ?_⟩
  · rw [md5checksum_snd, hd]
    simp [md5checksum, bytes16_idem]
  · simp [md5checksum, digested_bytes_eq]
  · rw [hd, digested_bytes_eq]
  · exact digested_bytes_eq cfg packet length

/-- A decimal digit is not the letter `C`. -/
theorem digitChar_ne_C (d : Nat) (h : d < 10) : Nat.digitChar d ≠ 'C' := by
  interval_cases d <;> decide

/-- The decimal digits of a number do not contain the letter `C`. -/
theorem toDigitsCore_no_C :
    ∀ (fuel n : Nat) (ds : List Char), 'C' ∉ ds → 'C' ∉ Nat.toDigitsCore 10 fuel n ds := by
  intro fuel
  induction fuel with
  | zero =>
    intro n ds h
    simpa [Nat.toDigitsCore] using h
  | succ fuel ih =>
    intro n ds h
    have hd : 'C' ∉ Nat.digitChar (n % 10) :: ds := by
      intro hmem
      rcases List.mem_cons.1 hmem with h1 | h1
      · exact digitChar_ne_C (n % 10) (Nat.mod_lt _ (by decide)) h1.symm
      · exact h h1
    rw [Nat.toDigitsCore]
    by_cases hz : n / 10 = 0
    · simpa [hz] using hd
    · simp only [hz, if_false]
      exact ih _ _ hd

/-- The text of `sprintf(msg,"%ld",n)` does not contain the letter `C`. -/
theorem toString_int_no_C (n : Int) : 'C' ∉ (toString n).data := by
  cases n with
  | ofNat m =>
    show 'C' ∉ (Nat.repr m).data
    exact toDigitsCore_no_C _ _ [] (by simp)
  | negSucc m =>
    show 'C' ∉ ("-" ++ Nat.repr (m + 1)).data
    rw [String.data_append]
    intro hmem
    rcases List.mem_append.1 hmem with h1 | h1
    · revert h1
      decide
    · exact toDigitsCore_no_C _ _ [] (by simp) h1

/-- A number frame is neither `CLIENT_FINISHED` nor `CLIENT_READY`. -/
theorem toString_int_ne_token (n : Int) :
    toString n ≠ "CLIENT_FINISHED" ∧ toString n ≠ "CLIENT_READY" := by
  constructor
  · intro h
    apply toString_int_no_C n
    rw [h]
    decide
  · intro h
    apply toString_int_no_C n
    rw [h]
    decide

/-- The frames written by the sender loop are `CLIENT_READY` tokens and packets,
and with an iteration bound above the number of remaining packets the loop
returns. -/
theorem send_loop_frames (cfg : Config) (now : Nat → Int) (npackets : Int) :
    ∀ (fuel : Nat) (st : sender_state), npackets.toNat - st.ii < fuel →
      ∃ st1 body, send_loop cfg now npackets fuel st = some st1 ∧
        st1.sent = st.sent ++ body ∧
        ∀ f ∈ body, f = Frame.text "CLIENT_READY" ∨ ∃ p, f = Frame.packet p := by
  intro fuel
  induction fuel with
  | zero =>
    intro st h
    omega
  | succ fuel ih =>
    intro st h
    rw [send_loop]
    by_cases hlt : (st.ii : Int) < npackets
    · rw [if_pos hlt]
      have hsent : (announce cfg st).sent = st.sent ++ [Frame.text "CLIENT_READY"] := by
        simp only [announce, read_reply, write_msg]
        split <;> rfl
      by_cases hack : (announce cfg st).msg = "ACK"
      · rw [if_pos hack]
        obtain ⟨st1, body, h1, h2, h3⟩ :=
          ih { transmit (now st.ii) (announce cfg st) with ii := st.ii + 1 } (by simp only; omega)
        have hsent2 : (transmit (now st.ii) (announce cfg st)).sent =
            st.sent ++ [Frame.text "CLIENT_READY",
              Frame.packet { (announce cfg st).packet with timestamp := now st.ii }] := by
          simp only [transmit, read_reply]
          split <;> simp [hsent]
        refine ⟨st1, [Frame.text "CLIENT_READY",
          Frame.packet { (announce cfg st).packet with timestamp := now st.ii }] ++ body,
          h1, ?_, ?_⟩
        · rw [h2]
          simp only [hsent2, List.append_assoc]
        · intro f hf
          rcases List.mem_append.1 hf with hf1 | hf1
          · simp only [List.mem_cons, List.mem_singleton, List.not_mem_nil, or_false] at hf1
            rcases hf1 with hf1 | hf1
            · exact Or.inl hf1
            · exact Or.inr ⟨_, hf1⟩
          · exact h3 f hf1
      · rw [if_neg hack]
        refine ⟨_, [Frame.text "CLIENT_READY"], rfl, hsent, ?_⟩
        intro f hf
        exact Or.inl (List.mem_singleton.1 hf)
    · rw [if_neg hlt]
      exact ⟨st, [], rfl, by simp, by simp⟩

/-- C8: for every requested count `npackets` (also zero or negative) and every
sequence of replies from the receiver, the sender's run returns, the frames
it has written contain the token `CLIENT_FINISHED` exactly once, and that
token is the last frame. -/
theorem client_finished_sent_once (cfg : Config) (packet : buf_item) (start : Int)
    (now : Nat → Int) (npackets : Int) (replies : List String) :
    ∃ frames report, client_main cfg packet start now npackets replies = some (frames, report) ∧
      frames.count (Frame.text "CLIENT_FINISHED") = 1 ∧
      frames.getLast? = some (Frame.text "CLIENT_FINISHED") := by
  obtain ⟨st1, body, h1, h2, h3⟩ := send_loop_frames cfg now npackets (npackets.toNat + 1)
    (write_msg (write_msg
      { ii := 0, packet := packet, msg := "", err_flag := false, replies := replies,
        sent := [] } (toString start)) (toString npackets))
    (by simp only [write_msg]; omega)
  have hbody : body.count (Frame.text "CLIENT_FINISHED") = 0 := by
    rw [List.count_eq_zero]
    intro hmem
    rcases h3 _ hmem with hf | ⟨p, hf⟩
    · revert hf
      decide
    · cases hf
  have hstart := (toString_int_ne_token start).1
  have hcount := (toString_int_ne_token npackets).1
  refine ⟨(write_msg st1 "CLIENT_FINISHED").sent,
    { err_flag := st1.err_flag, packets_sent := st1.ii, packets_requested := npackets },
    ?_, ?_, ?_⟩
  · simp only [client_main, h1]
  · simp only [write_msg, h2, List.nil_append, List.cons_append, List.count_append, hbody,
      List.count_cons, List.count_nil, beq_iff_eq, Frame.text.injEq]
    simp [hstart, hcount]
  · simp [write_msg]

/-- The packet prepared for iteration `ii` carries the id `ii`. -/
theorem prepare_packet_id (cfg : Config) (packet : buf_item) (ii : Nat) :
    (prepare_packet cfg packet ii).id = (ii : Int) := by
  unfold prepare_packet
  split <;> simp [md5checksum, zero_fields]

/-- The packet ids of two lists of frames. -/
theorem packet_ids_append (fs gs : List Frame) :
    packet_ids (fs ++ gs) = packet_ids fs ++ packet_ids gs := by
  induction fs with
  | nil => simp [packet_ids]
  | cons f fs ih =>
    cases f with
    | text msg => simpa [packet_ids] using ih
    | packet p => simpa [packet_ids] using ih

/-- The sender loop against a receiver that acknowledges `bws.length` packets
and then answers with something else (or with nothing): one packet per
acknowledgement, with consecutive ids, one more `CLIENT_READY`, then the
loop is left with the error flag set. -/
theorem send_loop_acked (cfg : Config) (now : Nat → Int) (npackets : Int) (tail : List String)
    (htail : ∀ tok ∈ tail.head?, tok ≠ "ACK") :
    ∀ (bws : List String) (fuel : Nat) (st : sender_state), npackets.toNat - st.ii < fuel →
      st.replies = acked_rounds bws ++ tail →
      ((st.ii + bws.length : Nat) : Int) < npackets →
      ∃ st1 body, send_loop cfg now npackets fuel st = some st1 ∧
        st1.ii = st.ii + bws.length ∧ st1.err_flag = true ∧
        st1.sent = st.sent ++ body ∧
        packet_ids body = (List.range' st.ii bws.length).map Int.ofNat ∧
        body.count (Frame.text "CLIENT_READY") = bws.length + 1 := by
  intro bws
  induction bws with
  | nil =>
    intro fuel st hfuel hrep hlt
    cases fuel with
    | zero => omega
    | succ fuel =>
      simp only [List.length_nil, Nat.add_zero] at hlt
      simp only [acked_rounds, List.nil_append] at hrep
      have hmsg : (announce cfg st).msg ≠ "ACK" := by
        cases tail with
        | nil =>
          simp only [announce, read_reply, write_msg, hrep]
          decide
        | cons tok rest =>
          simp only [announce, read_reply, write_msg, hrep]
          exact htail tok (by simp)
      have hsent : (announce cfg st).sent = st.sent ++ [Frame.text "CLIENT_READY"] := by
        simp only [announce, read_reply, write_msg]
        split <;> rfl
      have hii : (announce cfg st).ii = st.ii := by
        simp only [announce, read_reply, write_msg]
        split <;> rfl
      rw [send_loop, if_pos hlt, if_neg hmsg]
      refine ⟨_, [Frame.text "CLIENT_READY"], rfl, by simpa using hii, rfl, hsent, ?_, ?_⟩
      · simp [packet_ids]
      · simp
  | cons bw bws ih =>
    intro fuel st hfuel hrep hlt
    cases fuel with
    | zero => omega
    | succ fuel =>
      simp only [List.length_cons] at hlt
      simp only [acked_rounds, List.cons_append] at hrep
      have hann : announce cfg st =
          { st with
            packet := prepare_packet cfg st.packet st.ii
            msg := "ACK"
            replies := bw :: (acked_rounds bws ++ tail)
            sent := st.sent ++ [Frame.text "CLIENT_READY"] } := by
        simp only [announce, read_reply, write_msg, hrep]
      have hlt0 : (st.ii : Int) < npackets := by omega
      rw [send_loop, if_pos hlt0, if_pos (by rw [hann])]
      obtain ⟨st1, body, h1, h2, h3, h4, h5, h6⟩ :=
        ih fuel { transmit (now st.ii) (announce cfg st) with ii := st.ii + 1 }
          (by simp only; omega)
          (by simp only [hann, transmit, read_reply])
          (by simp only; omega)
      refine ⟨st1, [Frame.text "CLIENT_READY",
        Frame.packet { prepare_packet cfg st.packet st.ii with timestamp := now st.ii }] ++ body,
        h1, ?_, h3, ?_, ?_, ?_⟩
      · rw [h2]
        simp only [List.length_cons]
        omega
      · rw [h4]
        simp only [hann, transmit, read_reply, List.append_assoc, List.singleton_append,
          List.cons_append, List.nil_append]
      · rw [packet_ids_append, h5]
        simp only [packet_ids, prepare_packet_id, List.length_cons, List.range'_succ,
          List.map_cons, List.nil_append, List.cons_append]
        rfl
      · rw [List.count_append, h6]
        simp only [List.count_cons, List.count_nil, List.length_cons]
        simp
        omega

/-- C9: if the receiver acknowledges the first `k = bws.length` `CLIENT_READY`
tokens (answering each packet with a bandwidth text) and answers the next one
with a token other than `ACK` (or with nothing), with `k < npackets`, then the
sender transmits exactly the packets with ids 0..k-1, writes `k + 1`
`CLIENT_READY` tokens in all (no retry), still ends with `CLIENT_FINISHED`,
and reports `k/npackets` with the error flag set. -/
theorem sender_stops_at_unexpected_token (cfg : Config) (packet : buf_item) (start : Int)
    (now : Nat → Int) (npackets : Int) (bws tail : List String)
    (hk : (bws.length : Int) < npackets) (htail : ∀ tok ∈ tail.head?, tok ≠ "ACK") :
    ∃ frames, client_main cfg packet start now npackets (acked_rounds bws ++ tail) =
        some (frames, { err_flag := true, packets_sent := bws.length,
                        packets_requested := npackets }) ∧
      packet_ids frames = (List.range bws.length).map Int.ofNat ∧
      frames.count (Frame.text "CLIENT_READY") = bws.length + 1 ∧
      frames.getLast? = some (Frame.text "CLIENT_FINISHED") := by
  obtain ⟨st1, body, h1, h2, h3, h4, h5, h6⟩ := send_loop_acked cfg now npackets tail htail bws
    (npackets.toNat + 1)
    (write_msg (write_msg
      { ii := 0, packet := packet, msg := "", err_flag := false,
        replies := acked_rounds bws ++ tail, sent := [] } (toString start)) (toString npackets))
    (by simp only [write_msg]; omega) (by simp only [write_msg])
    (by simp only [write_msg]; omega)
  have hstart := (toString_int_ne_token start).2
  have hcount := (toString_int_ne_token npackets).2
  simp only [write_msg, Nat.zero_add, List.nil_append, List.cons_append] at h2 h4 h5
  refine ⟨(write_msg st1 "CLIENT_FINISHED").sent, ?_, ?_, ?_, ?_⟩
  · simp only [client_main, h1, h2, h3]
  · simp only [write_msg, h4, List.cons_append, List.nil_append, packet_ids, packet_ids_append,
      h5, List.append_nil, List.range_eq_range']
  · simp only [write_msg, h4, List.cons_append, List.nil_append, List.count_append, h6,
      List.count_cons, List.count_nil, beq_iff_eq, Frame.text.injEq]
    simp [hstart, hcount]
  · simp [write_msg]

/-- C9, Scenario D: 16 packets requested, 10 exchanges acknowledged, then the
token `NACK`: ids 0..9 are sent and the report is 10/16 with the error flag. -/
theorem sender_stops_at_unexpected_token_witness :
    ((List.replicate 10 "1.5").length : Int) < 16 ∧
    (∀ tok ∈ ["NACK"].head?, tok ≠ "ACK") ∧
    ∃ frames, client_main (sum_config false) empty_item 1000 (fun ii => 1000 + ii) 16
        (acked_rounds (List.replicate 10 "1.5") ++ ["NACK"]) =
        some (frames, { err_flag := true, packets_sent := 10, packets_requested := 16 }) ∧
      packet_ids frames = [0, 1, 2, 3, 4, 5, 6, 7, 8, 9] ∧
      frames.count (Frame.text "CLIENT_READY") = 10 + 1 ∧
      frames.getLast? = some (Frame.text "CLIENT_FINISHED") :=
  ⟨by decide, by decide,
    sender_stops_at_unexpected_token (sum_config false) empty_item 1000 (fun ii => 1000 + ii) 16
      (List.replicate 10 "1.5") ["NACK"] (by decide) (by decide)⟩

/-- C12: for a power-of-two capacity and every buffer state, `enqueue` copies
the packet into the slot `write mod C` (the masked index equals the
remainder), advances `write` by one, posts `countsem` once, and leaves `read`,
`spacesem`, the capacity and every other slot unchanged. -/
theorem enqueue_frame (k : Nat) (buf : ring_buffer) (p : buf_item)
    (hn : buf.n_items = 2 ^ k) (hlen : buf.data.length = 2 ^ k) :
    slot_index buf.write buf.n_items = buf.write % 2 ^ k ∧
    (enqueue buf p).data[buf.write % 2 ^ k]? = some p ∧
    (enqueue buf p).write = buf.write + 1 ∧
    (enqueue buf p).countsem = buf.countsem + 1 ∧
    (enqueue buf p).read = buf.read ∧
    (enqueue buf p).spacesem = buf.spacesem ∧
    (enqueue buf p).n_items = buf.n_items ∧
    (enqueue buf p).data.length = buf.data.length ∧
    (∀ i, i ≠ buf.write % 2 ^ k → (enqueue buf p).data[i]? = buf.data[i]?) := by
  have hpos : 0 < 2 ^ k := Nat.pos_pow_of_pos k (by decide)
  have hidx : slot_index buf.write buf.n_items = buf.write % 2 ^ k := by
    rw [hn, slot_index_pow]
  have hlt : buf.write % 2 ^ k < buf.data.length := by
    rw [hlen]
    exact Nat.mod_lt _ hpos
  refine ⟨hidx, ?_, rfl, rfl, rfl, rfl, rfl, ?_, ?_⟩
  · simp only [enqueue, sem_post_count, enqueue_copy, hidx]
    exact List.getElem?_set_self hlt
  · simp [enqueue, sem_post_count, enqueue_copy]
  · intro i hi
    simp only [enqueue, sem_post_count, enqueue_copy, hidx]
    exact List.getElem?_set_ne (fun e => hi e.symm)

/-- C12, at a concrete state: capacity 4, write = 5, so the packet goes to slot 1. -/
theorem enqueue_frame_witness :
    ({ init_buf 4 with write := 5, read := 3 } : ring_buffer).n_items = 2 ^ 2 ∧
    slot_index 5 4 = 1 ∧
    (enqueue { init_buf 4 with write := 5, read := 3 } (packet_with_id 7)).data[5 % 2 ^ 2]? =
      some (packet_with_id 7) ∧
    (enqueue { init_buf 4 with write := 5, read := 3 } (packet_with_id 7)).write = 5 + 1 :=
  ⟨rfl, rfl,
    (enqueue_frame 2 { init_buf 4 with write := 5, read := 3 } (packet_with_id 7) rfl rfl).2.1,
    (enqueue_frame 2 { init_buf 4 with write := 5, read := 3 } (packet_with_id 7) rfl rfl).2.2.1⟩

/-- The five steps of one `dequeue` from a state in which the processor is
outside `dequeue`, a count credit is available and the slot at `read` exists. -/
theorem run_dequeue_events (s : Sys) (item : buf_item) (hidle : s.pc = ProcPC.idle)
    (hcount : s.buf.countsem ≠ 0)
    (hitem : s.buf.data[slot_index s.buf.read s.buf.n_items]? = some item) :
    run s [Event.deq_wait] =
      some { s with buf := { s.buf with countsem := s.buf.countsem - 1 }, pc := ProcPC.waited } ∧
    run s [Event.deq_wait, Event.deq_take] =
      some { s with
        buf := { s.buf with countsem := s.buf.countsem - 1, read := s.buf.read + 1 }
        pc := ProcPC.holding (slot_index s.buf.read s.buf.n_items) } ∧
    run s [Event.deq_wait, Event.deq_take, Event.deq_process] =
      some { s with
        buf := { s.buf with countsem := s.buf.countsem - 1, read := s.buf.read + 1 }
        pc := ProcPC.processed (slot_index s.buf.read s.buf.n_items)
        drained := s.drained ++ [item] } ∧
    run s [Event.deq_wait, Event.deq_take, Event.deq_process, Event.deq_mark] =
      some { s with
        buf := { s.buf with
          countsem := s.buf.countsem - 1
          read := s.buf.read + 1
          data := s.buf.data.set (slot_index s.buf.read s.buf.n_items) { item with id := -1 } }
        pc := ProcPC.marked
        drained := s.drained ++ [item] } ∧
    run s dequeue_events =
      some { s with
        buf := { s.buf with
          countsem := s.buf.countsem - 1
          read := s.buf.read + 1
          spacesem := s.buf.spacesem + 1
          data := s.buf.data.set (slot_index s.buf.read s.buf.n_items) { item with id := -1 } }
        pc := ProcPC.idle
        drained := s.drained ++ [item] } := by
  refine ⟨?_, ?_, ?_, ?_, ?_⟩ <;>
    simp [run, step, dequeue_events, hidle, sem_wait_count, hcount, dequeue_take, hitem,
      mark_processed, sem_post_space]

/-- The function `dequeue` on a buffer with a count credit and an existing slot
at `read`. -/
theorem dequeue_eq (buf : ring_buffer) (item : buf_item) (hcount : buf.countsem ≠ 0)
    (hitem : buf.data[slot_index buf.read buf.n_items]? = some item) :
    dequeue buf = some (item,
      { buf with
        countsem := buf.countsem - 1
        read := buf.read + 1
        spacesem := buf.spacesem + 1
        data := buf.data.set (slot_index buf.read buf.n_items) { item with id := -1 } }) := by
  simp [dequeue, sem_wait_count, hcount, dequeue_take, hitem, mark_processed, sem_post_space]

/-- C13: for a power-of-two capacity and every state with a count credit in
which the processor is outside `dequeue`: `dequeue` takes one count credit,
selects the slot `read mod C`, advances `read` by one and hands the slot to
`process_item` as it is; before `process_item` has run, neither the mark nor
the post is enabled, the slots and `spacesem` are still untouched after it,
and the post is not enabled before the mark; at the end the slot has `id = -1`
with its other fields kept, `spacesem` is one higher, and `write` and every
other slot are unchanged. -/
theorem dequeue_frame (k : Nat) (s : Sys) (hn : s.buf.n_items = 2 ^ k)
    (hlen : s.buf.data.length = 2 ^ k) (hcount : s.buf.countsem ≠ 0)
    (hidle : s.pc = ProcPC.idle) :
    ∃ item b s2 s3 s4,
      slot_index s.buf.read s.buf.n_items = s.buf.read % 2 ^ k ∧
      s.buf.data[s.buf.read % 2 ^ k]? = some item ∧
      dequeue s.buf = some (item, b) ∧
      b.countsem + 1 = s.buf.countsem ∧ b.read = s.buf.read + 1 ∧
      b.spacesem = s.buf.spacesem + 1 ∧ b.write = s.buf.write ∧
      b.n_items = s.buf.n_items ∧
      b.data[s.buf.read % 2 ^ k]? = some { item with id := -1 } ∧
      (∀ i, i ≠ s.buf.read % 2 ^ k → b.data[i]? = s.buf.data[i]?) ∧
      run s [Event.deq_wait, Event.deq_take] = some s2 ∧
      step s2 Event.deq_mark = none ∧ step s2 Event.deq_post = none ∧
      run s [Event.deq_wait, Event.deq_take, Event.deq_process] = some s3 ∧
      s3.drained = s.drained ++ [item] ∧ s3.buf.data = s.buf.data ∧
      s3.buf.spacesem = s.buf.spacesem ∧ step s3 Event.deq_post = none ∧
      run s [Event.deq_wait, Event.deq_take, Event.deq_process, Event.deq_mark] = some s4 ∧
      s4.buf.data = b.data ∧ s4.buf.spacesem = s.buf.spacesem ∧
      run s dequeue_events =
        some { s with buf := b, pc := ProcPC.idle, drained := s.drained ++ [item] } := by
  have hpos : 0 < 2 ^ k := Nat.pos_pow_of_pos k (by decide)
  have hidx : slot_index s.buf.read s.buf.n_items = s.buf.read % 2 ^ k := by
    rw [hn, slot_index_pow]
  have hlt : s.buf.read % 2 ^ k < s.buf.data.length := by
    rw [hlen]
    exact Nat.mod_lt _ hpos
  have hitem : s.buf.data[slot_index s.buf.read s.buf.n_items]? =
      some (s.buf.data[s.buf.read % 2 ^ k]) := by
    rw [hidx]
    exact List.getElem?_eq_getElem hlt
  obtain ⟨_, h2, h3, h4, h5⟩ := run_dequeue_events s _ hidle hcount hitem
  refine ⟨s.buf.data[s.buf.read % 2 ^ k], _, _, _, _, hidx, List.getElem?_eq_getElem hlt,
    dequeue_eq s.buf _ hcount hitem, ?_, rfl, rfl, rfl, rfl, ?_, ?_, h2, rfl, rfl, h3, rfl, rfl,
    rfl, rfl, h4, rfl, rfl, h5⟩
  · simp only
    omega
  · simp only [hidx]
    exact List.getElem?_set_self hlt
  · intro i hi
    simp only [hidx]
    exact List.getElem?_set_ne (fun e => hi e.symm)

/-- C13, at a concrete state: capacity 2 with the packets 0 and 1 enqueued. -/
theorem dequeue_frame_witness :
    ∃ item b, run (init_sys 2) (produce [0, 1]) = some two_enqueued ∧
      two_enqueued.buf.n_items = 2 ^ 1 ∧ two_enqueued.buf.data.length = 2 ^ 1 ∧
      two_enqueued.buf.countsem ≠ 0 ∧ two_enqueued.pc = ProcPC.idle ∧
      dequeue two_enqueued.buf = some (item, b) ∧ item = packet_with_id 0 ∧
      b.read = 1 ∧ b.countsem = 1 ∧ b.spacesem = 1 ∧ b.write = 2 ∧
      b.data = [packet_with_id (-1), packet_with_id 1] := by
  obtain ⟨item, b, _, _, _, _, _, h, _⟩ := dequeue_frame 1 two_enqueued rfl rfl (by decide) rfl
  refine ⟨item, b, rfl, rfl, rfl, by decide, rfl, h, ?_⟩
  have h2 : dequeue two_enqueued.buf = some (packet_with_id 0,
      { read := 1, write := 2, n_items := 2, countsem := 1, spacesem := 1,
        data := [packet_with_id (-1), packet_with_id 1] }) := rfl
  rw [h2] at h
  simp only [Option.some.injEq, Prod.mk.injEq] at h
  obtain ⟨hi, hb⟩ := h
  subst hi
  subst hb
  exact ⟨rfl, rfl, rfl, rfl, rfl, rfl⟩

/-- The C division by a non-zero divisor is defined. -/
theorem c_div_of_ne_zero (a b : Int) (hb : b ≠ 0) : c_div a b = some (Int.tdiv a b) := by
  simp [c_div, hb]

/-- The bandwidth is always defined: 0 for an elapsed time of 0, else the
`float` made from the truncated integer quotient. -/
theorem packet_bw_eq (nbytes elapsed : Int) :
    packet_bw nbytes elapsed =
      some (if elapsed = 0 then (0, 1) else float_of_quotient (Int.tdiv nbytes elapsed)) := by
  unfold packet_bw
  by_cases h : elapsed = 0
  · simp [h]
  · simp [h, c_div]

/-- As long as every write succeeds and the announced count is not 0, the
receiver loop with replies acts on the buffer and on its counters exactly as
`client_loop`. -/
theorem client_rounds_state (cfg : Config) (bias npackets : Int) (hn : npackets ≠ 0) :
    ∀ (rounds : List Round) (js : job_state),
      (∀ r ∈ rounds, r.ack_written = true ∧ r.bw_written = true) →
      (client_rounds cfg bias npackets rounds js).state =
        client_loop cfg (rounds.map (fun r => r.reads)) js.st := by
  intro rounds
  induction rounds with
  | nil =>
    intro js _
    simp [client_rounds, client_loop, Outcome.state]
  | cons r rest ih =>
    intro js hok
    have hr := hok r (List.mem_cons_self _ _)
    have ih2 : ∀ js2, (client_rounds cfg bias npackets rest js2).state =
        client_loop cfg (rest.map (fun r => r.reads)) js2.st :=
      fun js2 => ih js2 (fun r2 hr2 => hok r2 (List.mem_cons_of_mem _ hr2))
    simp only [List.map_cons]
    rw [client_rounds, client_loop]
    by_cases h1 : r.reads.nbytes ≤ 0
    · simp [h1, Outcome.state]
    · rw [if_neg h1, if_neg h1]
      by_cases h2 : r.reads.msg = "CLIENT_FINISHED"
      · simp [h2, Outcome.state]
      · rw [if_neg h2, if_neg h2]
        by_cases h3 : r.reads.msg ≠ "CLIENT_READY"
        · rw [if_pos h3, if_pos h3]
          exact ih2 js
        · rw [if_neg h3, if_neg h3]
          cases hw : sem_wait_space js.st.buf with
          | none => simp [Outcome.state]
          | some b =>
            simp only [hr.1, hr.2, Bool.true_eq_false, if_false, packet_bw_eq,
              c_div_of_ne_zero _ _ hn]
            by_cases h4 : r.reads.packet_nbytes ≠ (cfg.packet_size : Int)
            · rw [if_pos h4, if_pos h4]
              simp [Outcome.state]
            · rw [if_neg h4, if_neg h4]
              by_cases h5 : (check_packet cfg js.st.checksum r.reads.packet).2 ≠ 0
              · rw [if_pos h5, if_pos h5]
                exact ih2 _
              · rw [if_neg h5, if_neg h5]
                exact ih2 _

/-- C14 (refuted as stated): a receiver on an empty capacity-2 buffer whose write
of `ACK` fails, and one whose write of the bandwidth reply fails: in both runs
`Rio_writen` ends in `unix_error` and `exit(0)`, so the receiving process does
not keep running. -/
theorem write_failure_ends_process :
    process_running (client_job_rounds (sum_config false) 1000 1000 16
      [ready_round 20 sample_packet 1010 false true] (init_buf 2)) = false ∧
    process_running (client_job_rounds (sum_config false) 1000 1000 16
      [ready_round 20 sample_packet 1010 true false] (init_buf 2)) = false :=
  ⟨rfl, rfl⟩

/-- C14 (amended): when the write of `ACK`, or for a full-size packet the write
of the bandwidth reply, fails in a receiver that has obtained its space credit,
the run ends in `exit(0)`: the whole receiving process ends (all receivers and
the processor with it), at a moment at which the credit is taken and nothing
was enqueued by this iteration. -/
theorem write_failure_exits_process (cfg : Config) (bias npackets : Int) (r : Round)
    (rest : List Round) (js : job_state)
    (hnb : 0 < r.reads.nbytes) (hm : r.reads.msg = "CLIENT_READY")
    (hspace : js.st.buf.spacesem ≠ 0)
    (hfail : r.ack_written = false ∨
      (r.reads.packet_nbytes = (cfg.packet_size : Int) ∧ r.bw_written = false)) :
    ∃ js2, client_rounds cfg bias npackets (r :: rest) js = Outcome.exited js2 ∧
      process_running (client_rounds cfg bias npackets (r :: rest) js) = false ∧
      js2.st.buf.spacesem + 1 = js.st.buf.spacesem ∧
      js2.st.buf.write = js.st.buf.write ∧ js2.st.buf.countsem = js.st.buf.countsem ∧
      js2.st.buf.data = js.st.buf.data ∧ js2.st.received = js.st.received := by
  have hwait : sem_wait_space js.st.buf =
      some { js.st.buf with spacesem := js.st.buf.spacesem - 1 } := by
    simp [sem_wait_space, hspace]
  by_cases hack : r.ack_written = false
  · have heq : client_rounds cfg bias npackets (r :: rest) js =
        Outcome.exited { js with st := { js.st with
          buf := { js.st.buf with spacesem := js.st.buf.spacesem - 1 } } } := by
      rw [client_rounds, if_neg (by omega), if_neg (by rw [hm]; decide),
        if_neg (by rw [hm]; decide)]
      simp only [hwait, hack, if_true]
    refine ⟨_, heq, by rw [heq]; rfl, ?_, rfl, rfl, rfl, rfl⟩
    simp only
    omega
  · rcases hfail with hf | ⟨hsize, hbw⟩
    · exact absurd hf hack
    · have heq : client_rounds cfg bias npackets (r :: rest) js =
          Outcome.exited { js with
            st := { js.st with
              buf := { js.st.buf with spacesem := js.st.buf.spacesem - 1 }
              cache_buf := r.reads.packet }
            replies := js.replies ++ [Reply.ack] } := by
        rw [client_rounds, if_neg (by omega), if_neg (by rw [hm]; decide),
          if_neg (by rw [hm]; decide)]
        have hack2 : r.ack_written = true := by
          cases h : r.ack_written with
          | true => rfl
          | false => exact absurd h hack
        simp only [hwait, hack2, Bool.true_eq_false, if_false, hsize, ne_eq, not_true_eq_false,
          packet_bw_eq, hbw, if_true]
      refine ⟨_, heq, by rw [heq]; rfl, ?_, rfl, rfl, rfl, rfl⟩
      simp only
      omega

/-- C14 (amended), at a concrete run: the bandwidth write fails for the first
packet of a connection on an empty capacity-2 buffer. -/
theorem write_failure_exits_process_witness :
    ∃ js2, client_rounds (sum_config false) 0 16
        (ready_round 20 sample_packet 1010 true false :: [])
        { st := { buf := init_buf 2, cache_buf := empty_item, cnt := 0, received := 0,
                  total_size := 0, checksum := 1 }, replies := [], progress := [] } =
        Outcome.exited js2 ∧
      js2.st.buf.spacesem + 1 = 2 ∧ js2.st.buf.write = 0 := by
  obtain ⟨js2, h1, _, h3, h4, _⟩ := write_failure_exits_process (sum_config false) 0 16
    (ready_round 20 sample_packet 1010 true false) []
    { st := { buf := init_buf 2, cache_buf := empty_item, cnt := 0, received := 0,
              total_size := 0, checksum := 1 }, replies := [], progress := [] }
    (by decide) rfl (by decide) (Or.inr ⟨rfl, rfl⟩)
  exact ⟨js2, h1, h3, h4⟩

/-- C18 (evidence of the defect): the count frame announces 0 (or text that
`atoi` reads as 0), then the sender announces a packet.  For a full-size packet
the receiver enqueues it and then evaluates `100*cnt/npackets` with divisor 0;
for a wrong-size packet it evaluates `100*(cnt+1)/npackets` with divisor 0. -/
theorem zero_count_divides_by_zero :
    c_div (100 * 1) 0 = none ∧
    (∃ js, client_job_rounds (sum_config false) 1000 1000 0
        [ready_round 20 sample_packet 1010 true true] (init_buf 2) = Outcome.div_by_zero js ∧
      js.st.received = 1) ∧
    (∃ js, client_job_rounds (sum_config false) 1000 1000 0
        [ready_round 7 sample_packet 1010 true true] (init_buf 2) = Outcome.div_by_zero js ∧
      js.st.received = 0) ∧
    process_running (client_job_rounds (sum_config false) 1000 1000 0
        [ready_round 20 sample_packet 1010 true true] (init_buf 2)) = false :=
  ⟨rfl, ⟨_, rfl, rfl⟩, ⟨_, rfl, rfl⟩, rfl⟩

/-- With the flag down and no connected receiver observed, the polls change nothing. -/
theorem idle_polls_flag_down (ps : poll_state) (obs : List Int) (hflag : ps.flag = false)
    (hno : ∀ n ∈ obs, ¬ n > 0) : idle_polls ps obs = ps := by
  induction obs with
  | nil => rfl
  | cons n rest ih =>
    have hn : ¬ n > 0 := hno n (List.mem_cons_self _ _)
    have hstep : idle_poll ps n = ps := by
      simp [idle_poll, hflag, hn]
    rw [idle_polls, hstep]
    exact ih (fun m hm => hno m (List.mem_cons_of_mem _ hm))

/-- C16 (refuted as stated): one receiver connects, the processor observes
`nclients = 1`, the receiver ends without having received a packet and prints
the notification itself, then the processor observes `nclients = 0` and prints
it again: two notifications for the observed sequence 1, 0, with no
observation of a connected receiver between them. -/
theorem idle_message_printed_twice :
    observed server_start
      [ServerEvent.connect, ServerEvent.poll, ServerEvent.receiver_exit 0, ServerEvent.poll] =
      [1, 0] ∧
    (server_run server_start
      [ServerEvent.connect, ServerEvent.poll, ServerEvent.receiver_exit 0,
        ServerEvent.poll]).poll.output = [idle_message, idle_message] :=
  ⟨rfl, rfl⟩

/-- C16 (amended): over every sequence of observations none of which shows a
connected receiver, whatever the flag at its start, the processor's polling
loop prints the notification at most once, and not at all when the flag is
down at the start; a receiver that ends with `received == 0` prints the
notification itself and leaves the flag alone. -/
theorem idle_polls_at_most_once (ps : poll_state) (obs : List Int)
    (hno : ∀ n ∈ obs, ¬ n > 0) :
    (∃ extra, (idle_polls ps obs).output = ps.output ++ extra ∧ extra.length ≤ 1 ∧
      (ps.flag = false → extra = [])) ∧
    (∀ s : server_state,
      (server_step s (ServerEvent.receiver_exit 0)).poll.output =
        s.poll.output ++ [idle_message] ∧
      (server_step s (ServerEvent.receiver_exit 0)).poll.flag = s.poll.flag) := by
  refine ⟨?_, fun s => ⟨rfl, rfl⟩⟩
  induction obs generalizing ps with
  | nil => exact ⟨[], by simp [idle_polls], by simp, fun _ => rfl⟩
  | cons n rest ih =>
    have hn : ¬ n > 0 := hno n (List.mem_cons_self _ _)
    have hrest : ∀ m ∈ rest, ¬ m > 0 := fun m hm => hno m (List.mem_cons_of_mem _ hm)
    by_cases hflag : ps.flag = false
    · refine ⟨[], ?_, by simp, fun _ => rfl⟩
      rw [idle_polls_flag_down ps (n :: rest) hflag hno]
      simp
    · by_cases h0 : n = 0
      · have hstep : idle_poll ps n =
            { flag := false, output := ps.output ++ [idle_message] } := by
          have hf : ps.flag = true := by
            cases h : ps.flag with
            | true => rfl
            | false => exact absurd h hflag
          simp [idle_poll, hf, h0]
        refine ⟨[idle_message], ?_, by simp, fun h => absurd h hflag⟩
        rw [idle_polls, hstep, idle_polls_flag_down _ rest rfl hrest]
      · have hstep : idle_poll ps n = ps := by
          simp [idle_poll, hn, h0]
        obtain ⟨extra, h1, h2, _⟩ := ih ps hrest
        refine ⟨extra, ?_, h2, fun h => absurd h hflag⟩
        rw [idle_polls, hstep]
        exact h1

/-- C16 (amended), at a concrete sequence: five polls that all observe
`nclients = 0` after a receiver had been observed give one notification. -/
theorem idle_polls_at_most_once_witness :
    (∀ n ∈ [(0 : Int), 0, 0, 0, 0], ¬ n > 0) ∧
    (idle_polls { flag := true, output := [] } [0, 0, 0, 0, 0]).output = [idle_message] ∧
    ∃ extra, (idle_polls { flag := true, output := [] } [0, 0, 0, 0, 0]).output =
      [] ++ extra ∧ extra.length ≤ 1 :=
  ⟨by decide, rfl,
    (idle_polls_at_most_once { flag := true, output := [] } [0, 0, 0, 0, 0] (by decide)).1.imp
      (fun _ h => ⟨h.1, h.2.1⟩)⟩

/-- C17 (evidence of the defect): five connections arrive while no receiver ends.
The test `nclients < MAX_CLIENTS` lets the fifth one in with `nclients = 4`, the
counter becomes 5 and the thread id is stored at `tid[5]`, one past the last
element of `pthread_t tid[MAX_CLIENTS]`; the indices used are 1, 2, 3, 4, 5. -/
theorem fifth_connection_index_out_of_bounds :
    ∃ s, accept_run accept_start five_arrivals = some s ∧
      s.tid_indices = [1, 2, 3, 4, 5] ∧ s.nclients = 5 ∧
      valid_tid_index 4 = true ∧ valid_tid_index 5 = false :=
  ⟨_, rfl, rfl, rfl, rfl, rfl⟩

/-- One iteration of the receiver loop for a full-size packet that fails the
integrity check, all writes succeeding and the announced count not 0: the loop
goes on with the same buffer. -/
theorem client_rounds_reject (cfg : Config) (bias npackets : Int) (r : Round)
    (rest : List Round) (js : job_state)
    (hnb : 0 < r.reads.nbytes) (hm : r.reads.msg = "CLIENT_READY")
    (hspace : js.st.buf.spacesem ≠ 0) (hack : r.ack_written = true)
    (hsize : r.reads.packet_nbytes = (cfg.packet_size : Int)) (hbw : r.bw_written = true)
    (hn : npackets ≠ 0) (hflag : (check_packet cfg js.st.checksum r.reads.packet).2 = 0) :
    client_rounds cfg bias npackets (r :: rest) js =
      client_rounds cfg bias npackets rest
        { st :=
            { buf := js.st.buf
              cache_buf := (check_packet cfg js.st.checksum r.reads.packet).1
              cnt := js.st.cnt + 1
              received := js.st.received
              total_size := js.st.total_size + r.reads.packet_nbytes
              checksum := (check_packet cfg js.st.checksum r.reads.packet).2 }
          replies := js.replies ++ [Reply.ack, Reply.bandwidth (sprintf_f
            (if receive_t r.receive_time r.reads.packet.timestamp bias = 0 then (0, 1)
             else float_of_quotient (Int.tdiv (cfg.packet_size : Int)
              (receive_t r.receive_time r.reads.packet.timestamp bias))))]
          progress := js.progress ++ [Int.tdiv (100 * ((js.st.cnt : Int) + 1)) npackets] } := by
  have hwait : sem_wait_space js.st.buf =
      some { js.st.buf with spacesem := js.st.buf.spacesem - 1 } := by
    simp [sem_wait_space, hspace]
  have hback : sem_post_space { js.st.buf with spacesem := js.st.buf.spacesem - 1 } =
      js.st.buf := by
    cases hb : js.st.buf with
    | mk rd w n c sp d =>
      simp only [sem_post_space]
      have : sp ≠ 0 := by simpa [hb] using hspace
      congr
      omega
  rw [client_rounds, if_neg (by omega), if_neg (by rw [hm]; decide),
    if_neg (by rw [hm]; decide)]
  simp only [hwait, hack, Bool.true_eq_false, if_false, hsize, ne_eq, not_true_eq_false,
    packet_bw_eq, hbw, c_div_of_ne_zero _ _ hn, hflag, hback]

/-- One iteration of the receiver loop for a full-size packet that passes the
integrity check (or with checking disabled), all writes succeeding and the
announced count not 0: the packet is enqueued and the loop goes on. -/
theorem client_rounds_accept (cfg : Config) (bias npackets : Int) (r : Round)
    (rest : List Round) (js : job_state)
    (hnb : 0 < r.reads.nbytes) (hm : r.reads.msg = "CLIENT_READY")
    (hspace : js.st.buf.spacesem ≠ 0) (hack : r.ack_written = true)
    (hsize : r.reads.packet_nbytes = (cfg.packet_size : Int)) (hbw : r.bw_written = true)
    (hn : npackets ≠ 0) (hflag : (check_packet cfg js.st.checksum r.reads.packet).2 ≠ 0) :
    client_rounds cfg bias npackets (r :: rest) js =
      client_rounds cfg bias npackets rest
        { st :=
            { buf := (enqueue { js.st.buf with spacesem := js.st.buf.spacesem - 1 }
                (check_packet cfg js.st.checksum r.reads.packet).1)
              cache_buf := (check_packet cfg js.st.checksum r.reads.packet).1
              cnt := js.st.cnt + 1
              received := js.st.received + 1
              total_size := js.st.total_size + r.reads.packet_nbytes
              checksum := (check_packet cfg js.st.checksum r.reads.packet).2 }
          replies := js.replies ++ [Reply.ack, Reply.bandwidth (sprintf_f
            (if receive_t r.receive_time r.reads.packet.timestamp bias = 0 then (0, 1)
             else float_of_quotient (Int.tdiv (cfg.packet_size : Int)
              (receive_t r.receive_time r.reads.packet.timestamp bias))))]
          progress := js.progress ++ [Int.tdiv (100 * ((js.st.cnt : Int) + 1)) npackets] } := by
  have hwait : sem_wait_space js.st.buf =
      some { js.st.buf with spacesem := js.st.buf.spacesem - 1 } := by
    simp [sem_wait_space, hspace]
  rw [client_rounds, if_neg (by omega), if_neg (by rw [hm]; decide),
    if_neg (by rw [hm]; decide)]
  simp only [hwait, hack, Bool.true_eq_false, if_false, hsize, ne_eq, not_true_eq_false,
    packet_bw_eq, hbw, c_div_of_ne_zero _ _ hn]
  rw [if_pos hflag]

/-- C6 (refuted as stated): integrity checking enabled, a capacity-4 buffer and
the packet `corrupt_packet`, whose digest differs from its checksum.  When the
write of the bandwidth reply (server.c 190) fails, the process ends in
`exit(0)` with the credit taken: `spacesem` is 3, not 4.  When the announced
count is 0, the division in the error message (server.c 213) comes before the
roll-back `sem_post` (server.c 214), and `spacesem` is 3 again. -/
theorem mismatch_without_roll_back :
    (sum_config true).use_checksum = true ∧
    bytes16 corrupt_packet.checksum ≠
      bytes16 ((sum_config true).md5 (digested_bytes (sum_config true) corrupt_packet 20)) ∧
    (init_buf 4).spacesem = 4 ∧
    (∃ js, client_job_rounds (sum_config true) 1000 1000 16
        [ready_round 20 corrupt_packet 1010 true false] (init_buf 4) = Outcome.exited js ∧
      js.st.buf.spacesem = 3) ∧
    (∃ js, client_job_rounds (sum_config true) 1000 1000 0
        [ready_round 20 corrupt_packet 1010 true true] (init_buf 4) = Outcome.div_by_zero js ∧
      js.st.buf.spacesem = 3) :=
  ⟨rfl, by decide, rfl, ⟨_, rfl, rfl⟩, ⟨_, rfl, rfl⟩⟩

/-- C6 (amended): with integrity checking enabled, the writes of `ACK` and of
the bandwidth succeeding and the announced count not 0, a full-size packet
whose recomputed digest differs from its transmitted checksum is not
enqueued: at the end of the stream the receiver loop returns with the whole
buffer (write, read, both semaphores, all slots) as before the reservation and
`received` unchanged, and for every continuation of the stream the loop goes
on from that state; when a full-size packet with a consistent checksum
follows, the loop returns with that packet in the slot at `write`, `write` and
`countsem` one higher, one space credit used and `received` one higher. -/
theorem checksum_mismatch_rolls_back (cfg : Config) (bias npackets : Int) (js : job_state)
    (x y : Round)
    (hc : cfg.use_checksum = true) (hn : npackets ≠ 0)
    (hx : 0 < x.reads.nbytes) (hxm : x.reads.msg = "CLIENT_READY")
    (hxa : x.ack_written = true) (hxs : x.reads.packet_nbytes = (cfg.packet_size : Int))
    (hxb : x.bw_written = true)
    (hbad : bytes16 x.reads.packet.checksum ≠
      bytes16 (cfg.md5 (digested_bytes cfg x.reads.packet cfg.packet_size)))
    (hy : 0 < y.reads.nbytes) (hym : y.reads.msg = "CLIENT_READY")
    (hya : y.ack_written = true) (hys : y.reads.packet_nbytes = (cfg.packet_size : Int))
    (hyb : y.bw_written = true)
    (hgood : bytes16 y.reads.packet.checksum =
      bytes16 (cfg.md5 (digested_bytes cfg y.reads.packet cfg.packet_size)))
    (hspace : js.st.buf.spacesem ≠ 0) :
    ∃ js1 js2,
      client_rounds cfg bias npackets [x] js = Outcome.returned js1 ∧
      js1.st.buf = js.st.buf ∧ js1.st.received = js.st.received ∧
      js1.st.cnt = js.st.cnt + 1 ∧
      (∀ rest, client_rounds cfg bias npackets (x :: rest) js =
        client_rounds cfg bias npackets rest js1) ∧
      client_rounds cfg bias npackets [x, y] js = Outcome.returned js2 ∧
      js2.st.received = js.st.received + 1 ∧ js2.st.cnt = js.st.cnt + 2 ∧
      js2.st.buf.write = js.st.buf.write + 1 ∧
      js2.st.buf.countsem = js.st.buf.countsem + 1 ∧
      js2.st.buf.spacesem + 1 = js.st.buf.spacesem ∧
      js2.st.buf.read = js.st.buf.read ∧
      js2.st.buf.data = js.st.buf.data.set (slot_index js.st.buf.write js.st.buf.n_items)
        (md5checksum cfg y.reads.packet cfg.packet_size).1 ∧
      (md5checksum cfg y.reads.packet cfg.packet_size).1.id = y.reads.packet.id ∧
      (md5checksum cfg y.reads.packet cfg.packet_size).1.img_data = y.reads.packet.img_data := by
  have hxflag : (check_packet cfg js.st.checksum x.reads.packet).2 = 0 := by
    simp only [check_packet, hc, if_true, md5checksum_snd, if_neg hbad]
  have hyflag : ∀ ck, (check_packet cfg ck y.reads.packet).2 ≠ 0 := by
    intro ck
    simp only [check_packet, hc, if_true, md5checksum_snd, if_pos hgood]
    decide
  have hycheck : ∀ ck, (check_packet cfg ck y.reads.packet).1 =
      (md5checksum cfg y.reads.packet cfg.packet_size).1 := by
    intro ck
    simp only [check_packet, hc, if_true]
  have hstep := fun rest =>
    client_rounds_reject cfg bias npackets x rest js hx hxm hspace hxa hxs hxb hn hxflag
  have hlast : client_rounds cfg bias npackets [x, y] js =
      Outcome.returned
        { st :=
            { buf := (enqueue { js.st.buf with spacesem := js.st.buf.spacesem - 1 }
                (md5checksum cfg y.reads.packet cfg.packet_size).1)
              cache_buf := (md5checksum cfg y.reads.packet cfg.packet_size).1
              cnt := js.st.cnt + 1 + 1
              received := js.st.received + 1
              total_size := js.st.total_size + x.reads.packet_nbytes + y.reads.packet_nbytes
              checksum := (check_packet cfg (check_packet cfg js.st.checksum x.reads.packet).2
                y.reads.packet).2 }
          replies := js.replies ++ [Reply.ack, Reply.bandwidth (sprintf_f
            (if receive_t x.receive_time x.reads.packet.timestamp bias = 0 then (0, 1)
             else float_of_quotient (Int.tdiv (cfg.packet_size : Int)
              (receive_t x.receive_time x.reads.packet.timestamp bias))))] ++
            [Reply.ack, Reply.bandwidth (sprintf_f
            (if receive_t y.receive_time y.reads.packet.timestamp bias = 0 then (0, 1)
             else float_of_quotient (Int.tdiv (cfg.packet_size : Int)
              (receive_t y.receive_time y.reads.packet.timestamp bias))))]
          progress := js.progress ++ [Int.tdiv (100 * ((js.st.cnt : Int) + 1)) npackets] ++
            [Int.tdiv (100 * (((js.st.cnt + 1 : Nat) : Int) + 1)) npackets] } := by
    rw [hstep [y],
      client_rounds_accept cfg bias npackets y [] _ hy hym ?_ hya hys hyb hn (hyflag _),
      client_rounds]
    · simp only [hycheck]
    · exact hspace
  have hfirst := hstep []
  rw [client_rounds] at hfirst
  refine ⟨_, _, hfirst, rfl, rfl, rfl, hstep, hlast, rfl, rfl, ?_, ?_, ?_, rfl, ?_, ?_, ?_⟩
  · simp [enqueue, sem_post_count, enqueue_copy]
  · simp [enqueue, sem_post_count, enqueue_copy]
  · simp only [enqueue, sem_post_count, enqueue_copy]
    omega
  · simp only [enqueue, sem_post_count, enqueue_copy]
  · simp [md5checksum, zero_fields]
  · simp [md5checksum, zero_fields]

/-- C6 (amended), at a concrete stream: `corrupt_packet` followed by
`sample_packet` into an empty capacity-4 buffer, 16 packets announced. -/
theorem checksum_mismatch_rolls_back_witness :
    ∃ js1 js2,
      client_job_rounds (sum_config true) 1000 1000 16
        [ready_round 20 corrupt_packet 1010 true true] (init_buf 4) = Outcome.returned js1 ∧
      js1.st.buf = init_buf 4 ∧ js1.st.received = 0 ∧ js1.st.cnt = 1 ∧
      client_job_rounds (sum_config true) 1000 1000 16
        [ready_round 20 corrupt_packet 1010 true true,
         ready_round 20 sample_packet 1020 true true] (init_buf 4) = Outcome.returned js2 ∧
      js2.st.received = 1 ∧ js2.st.cnt = 2 ∧ js2.st.buf.write = 1 ∧ js2.st.buf.countsem = 1 ∧
      js2.st.buf.spacesem = 3 ∧
      js2.st.buf.data.map (fun item => item.id) = [0, -1, -1, -1] := by
  obtain ⟨js1, js2, h1, h2, h3, h4, _, h6, h7, h8, h9, h10, h11, _, h13, _⟩ :=
    checksum_mismatch_rolls_back (sum_config true) (clock_bias 1000 1000) 16
      { st := { buf := init_buf 4, cache_buf := empty_item, cnt := 0, received := 0,
                total_size := 0, checksum := 1 }, replies := [], progress := [] }
      (ready_round 20 corrupt_packet 1010 true true)
      (ready_round 20 sample_packet 1020 true true)
      rfl (by decide) (by decide) rfl rfl rfl rfl (by decide) (by decide) rfl rfl rfl rfl
      (by decide) (by decide)
  refine ⟨js1, js2, h1, h2, h3, h4, h6, h7, h8, h9, h10, ?_, ?_⟩
  · have : js2.st.buf.spacesem + 1 = 4 := h11
    omega
  · rw [h13]
    decide

end TcpPacketTransfer
